import Mathlib

/-! conjur-authn-k8s-client: secret injection, authentication and retry

A shallow embedding of

* `pkg/secrets/k8s/k8s_secrets.go` (`RetrieveK8sSecrets`, `PatchK8sSecrets`,
  `patchK8sSecret`, `generateStringDataEntry`),
* `pkg/authenticator/gcp/authenticator.go` (`Authenticate` and its two requests),
* `pkg/utils/file.go` (`WaitForFile`, `VerifyFileExists`),

followed by the properties of these functions.

Conventions of the embedding:

* a Go `string` / `[]byte` is the list of its bytes; a byte is a `Nat` (every
  real byte string is such a list with entries below 256, and no function here
  computes with a byte, they only compare and copy them);
* a Go call that returns `(value, error)` returns a `GoResult`, which besides
  `ok` and `err` has the outcome `panic` for a run-time panic;
* a Go `map` that is only read with `range` is the list of its entries in the
  order in which `range` visits them (Go leaves this order unspecified, so the
  theorems hold for every list); a map that is built with `m[k] = v` is a
  `GoMap`;
* the cluster API, the HTTP transport and the token store are parameters.
-/

namespace ConjurK8s

/-! ## Bytes, errors, results -/

/-- A Go byte string. -/
abbrev Bytes := List Nat

/-- The bytes of an ASCII string literal. -/
def bytesOf (s : String) : Bytes := s.toList.map Char.toNat

/-- A Go `error` value, identified with its message. -/
abbrev Error := String

/-- Outcome of a Go call: a value, a returned error, or a run-time panic. -/
inductive GoResult (α : Type) where
  | ok (val : α)
  | err (e : Error)
  | panic (msg : String)
  deriving DecidableEq, Repr

/-! ## `strings.Split` -/

/-- Worker of `Split` for a non-empty separator: scans `s` from the left,
`acc` holding (reversed) the bytes since the last separator and `skip` the
number of bytes of an already matched separator that remain to be dropped. -/
def splitGo (sep : Bytes) : Nat → Bytes → Bytes → List Bytes
  | _, [], acc => [acc.reverse]
  | skip + 1, _ :: cs, acc => splitGo sep skip cs acc
  | 0, c :: cs, acc =>
    if sep.isPrefixOf (c :: cs) then acc.reverse :: splitGo sep (sep.length - 1) cs []
    else splitGo sep 0 cs (c :: acc)

/-- Go `strings.Split(s, sep)`: the pieces of `s` between the leftmost
non-overlapping occurrences of `sep`. No caller here passes an empty `sep`,
for which Go cuts `s` after each UTF-8 sequence; the single bytes stand for it. -/
def Split (s sep : Bytes) : List Bytes :=
  if sep = [] then s.map (fun c => [c]) else splitGo sep 0 s []

/-! ## `utils.ByteSlicePrintf` -/

/-- Concatenates the pieces of a format string, putting the next argument
between two consecutive pieces (the placeholder itself where none is left). -/
def fillPlaceholders (placeHolder : Bytes) : List Bytes → List Bytes → Bytes
  | [], _ => []
  | [p], _ => p
  | p :: ps, a :: as => p ++ a ++ fillPlaceholders placeHolder ps as
  | p :: ps, [] => p ++ placeHolder ++ fillPlaceholders placeHolder ps []

/-- Modelled from the spec: `utils.ByteSlicePrintf(format, placeHolder, args...)`
of `pkg/utils`, which lies outside the three embedded files. The spec has the
patch payload "constructed by direct byte-buffer concatenation" with "field
names and values individually quoted and comma-joined": the result is the
format string with its occurrences of the placeholder replaced, from left to
right, by the byte slices `args`, which are copied verbatim. -/
def ByteSlicePrintf (format placeHolder : Bytes) (args : List Bytes) : Bytes :=
  fillPlaceholders placeHolder (Split format placeHolder) args

/-! ## `generateStringDataEntry` -/

/-- The placeholder `"%v"` passed to every `ByteSlicePrintf` call. -/
def placeholderV : Bytes := bytesOf "%v"

/-- The format of one entry. -/
def entryFormat : Bytes := bytesOf "\"%v\":\"%v\""

/-- The format joining two entries. -/
def commaFormat : Bytes := bytesOf "%v,%v"

/-- The format wrapping all entries. -/
def wrapFormat : Bytes := bytesOf "\x7b\"stringData\":\x7b%v\x7d\x7d"

/-- First loop of `generateStringDataEntry`: `for key, value := range m`
stores the formatted entry at `entries[index]` and increments `index`. -/
def fillEntries : List (Bytes × Bytes) → List Bytes → Nat → List Bytes
  | [], entries, _ => entries
  | (key, value) :: rest, entries, index =>
    fillEntries rest
      (entries.set index (ByteSlicePrintf entryFormat placeholderV [key, value]))
      (index + 1)

/-- Second loop of `generateStringDataEntry`: `for i := range entries`, given
as the list of the indices still to visit; appends `entries[i+1]` to
`entriesCombined` while `i < numEntries-1` and sets `entries[i] = nil`. -/
def combineEntries (numEntries : Nat) : List Nat → Bytes → List Bytes → GoResult Bytes
  | [], entriesCombined, _ => .ok entriesCombined
  | i :: is, entriesCombined, entries =>
    if i < numEntries - 1 then
      match entries[i + 1]? with
      | none => .panic "index out of range"
      | some next =>
        combineEntries numEntries is
          (ByteSlicePrintf commaFormat placeholderV [entriesCombined, next])
          (entries.set i [])
    else combineEntries numEntries is entriesCombined (entries.set i [])

/-- Go function `generateStringDataEntry(stringDataEntriesMap)`; the argument lists the
entries of the map in the order `range` visits them. -/
def generateStringDataEntry (stringDataEntriesMap : List (Bytes × Bytes)) : GoResult Bytes :=
  if stringDataEntriesMap.length = 0 then
    .err "error map should not be empty"
  else
    let entries := fillEntries stringDataEntriesMap
      (List.replicate stringDataEntriesMap.length []) 0
    let numEntries := entries.length
    match entries[0]? with
    | none => .panic "index out of range"
    | some first =>
      match combineEntries numEntries (List.range entries.length) first entries with
      | .ok entriesCombined => .ok (ByteSlicePrintf wrapFormat placeholderV [entriesCombined])
      | .err e => .err e
      | .panic msg => .panic msg

/-! ## Go maps that are written to -/

/-- A Go `map[string]β` filled by assignments: its entries, one per key. -/
abbrev GoMap (β : Type) := List (Bytes × β)

/-- The assignment `m[k] = v`: it replaces the entry of `k`, if there is one. -/
def GoMap.assign {β : Type} (m : GoMap β) (k : Bytes) (v : β) : GoMap β :=
  (k, v) :: m.filter (fun e => !decide (e.1 = k))

/-- The lookup `m[k]`, `none` when the key is absent. -/
def GoMap.lookup {β : Type} : GoMap β → Bytes → Option β
  | [], _ => none
  | (k', v) :: m, k => if k' = k then some v else GoMap.lookup m k

/-! ## The cluster API -/

/-- A `v1.Secret`, reduced to its `Data` map; the list gives the entries in the
order `range` visits them. -/
structure Secret where
  Data : List (Bytes × Bytes)
  deriving DecidableEq, Repr

/-- One strategic-merge `Patch` call on the secrets of a namespace. -/
structure PatchRequest where
  podNamespace : Bytes
  secretName : Bytes
  body : Bytes
  deriving DecidableEq, Repr

/-- The Kubernetes client that `configKubeClient()` hands out (both callers
drop the error of that call with `kubeClient, _ :=`, so the client is taken as
given): `Get` answers with the secret or an error; `Patch` answers with an
error or `none`, and may depend on the requests made before. -/
structure KubeClient where
  Get : Bytes → Bytes → Except Error Secret
  Patch : List PatchRequest → PatchRequest → Option Error

/-- The fields of `secretsConfig.Config` that the handler reads. -/
structure Config where
  PodNamespace : Bytes
  RequiredK8sSecrets : List Bytes

/-- Go struct `K8sSecretsHandler`. -/
structure K8sSecretsHandler where
  Config : Config
  AccessToken : Bytes

/-- Go struct `K8sSecretsMap`: the new data entries per secret name, and for every
Conjur variable id its place `secretName:key` in that map. -/
structure K8sSecretsMap where
  K8sSecrets : GoMap (GoMap Bytes)
  PathMap : GoMap Bytes
  deriving DecidableEq, Repr

/-- Modelled from the spec: the constant `secretsConfig.CONJUR_MAP_KEY` of
`pkg/secrets/config`, which lies outside the three embedded files; the spec
names the reserved data key `conjur-map`. -/
def CONJUR_MAP_KEY : Bytes := bytesOf "conjur-map"

/-! ## `RetrieveK8sSecrets` -/

/-- Go function `retrieveK8sSecret(namespace, secretName)`. -/
def retrieveK8sSecret (kubeClient : KubeClient) (podNamespace secretName : Bytes) :
    GoResult Secret :=
  match kubeClient.Get podNamespace secretName with
  | .error e => .err ("failed to retrieve Kubernetes secret: " ++ e)
  | .ok k8sSecret => .ok k8sSecret

/-- The loop `for _, entry := range conjurMapEntries`: splits the entry at
`": "`, indexes the pieces 0 and 1 and records them in both maps. -/
def parseConjurMapEntries (secretName : Bytes) :
    List Bytes → GoMap Bytes → GoMap Bytes → GoResult (GoMap Bytes × GoMap Bytes)
  | [], newDataEntriesMap, pathMap => .ok (newDataEntriesMap, pathMap)
  | entry :: rest, newDataEntriesMap, pathMap =>
    let k8sSecretKeyVal := Split entry (bytesOf ": ")
    match k8sSecretKeyVal[0]? with
    | none => .panic "index out of range [0]"
    | some k8sSecretKey =>
      match k8sSecretKeyVal[1]? with
      | none => .panic "index out of range [1] with length 1"
      | some conjurVariableId =>
        parseConjurMapEntries secretName rest
          (GoMap.assign newDataEntriesMap k8sSecretKey conjurVariableId)
          (GoMap.assign pathMap conjurVariableId (secretName ++ bytesOf ":" ++ k8sSecretKey))

/-- The loop `for key, value := range k8sSecret.Secret.Data`. -/
def parseSecretData (secretName : Bytes) :
    List (Bytes × Bytes) → GoMap Bytes → GoMap Bytes → GoResult (GoMap Bytes × GoMap Bytes)
  | [], newDataEntriesMap, pathMap => .ok (newDataEntriesMap, pathMap)
  | (key, value) :: rest, newDataEntriesMap, pathMap =>
    if key = CONJUR_MAP_KEY then
      match parseConjurMapEntries secretName (Split value (bytesOf "\n"))
          newDataEntriesMap pathMap with
      | .ok (newDataEntriesMap', pathMap') =>
        parseSecretData secretName rest newDataEntriesMap' pathMap'
      | .err e => .err e
      | .panic msg => .panic msg
    else parseSecretData secretName rest newDataEntriesMap pathMap

/-- The loop `for _, secretName := range requiredK8sSecrets`. -/
def retrieveLoop (kubeClient : KubeClient) (podNamespace : Bytes) :
    List Bytes → GoMap (GoMap Bytes) → GoMap Bytes → GoResult K8sSecretsMap
  | [], k8sSecrets, pathMap => .ok ⟨k8sSecrets, pathMap⟩
  | secretName :: rest, k8sSecrets, pathMap =>
    match retrieveK8sSecret kubeClient podNamespace secretName with
    | .err e => .err ("error reading k8s secrets: " ++ e)
    | .panic msg => .panic msg
    | .ok k8sSecret =>
      match parseSecretData secretName k8sSecret.Data [] pathMap with
      | .err e => .err e
      | .panic msg => .panic msg
      | .ok (newDataEntriesMap, pathMap') =>
        if newDataEntriesMap.length > 0 then
          retrieveLoop kubeClient podNamespace rest
            (GoMap.assign k8sSecrets secretName newDataEntriesMap) pathMap'
        else retrieveLoop kubeClient podNamespace rest k8sSecrets pathMap'

/-- Go function `RetrieveK8sSecrets()`. -/
def RetrieveK8sSecrets (kubeClient : KubeClient) (secrets : K8sSecretsHandler) :
    GoResult K8sSecretsMap :=
  retrieveLoop kubeClient secrets.Config.PodNamespace secrets.Config.RequiredK8sSecrets [] []

/-! ## `PatchK8sSecrets` -/

/-- Go function `patchK8sSecret(namespace, secretName, stringDataEntriesMap)`, with the
requests made so far; returns the outcome and the requests made up to its end. -/
def patchK8sSecret (kubeClient : KubeClient) (podNamespace secretName : Bytes)
    (stringDataEntriesMap : List (Bytes × Bytes)) (sent : List PatchRequest) :
    GoResult Unit × List PatchRequest :=
  match generateStringDataEntry stringDataEntriesMap with
  | .err e => (.err ("failed to parse Kubernetes secret list: " ++ e), sent)
  | .panic msg => (.panic msg, sent)
  | .ok stringDataEntry =>
    let request : PatchRequest := ⟨podNamespace, secretName, stringDataEntry⟩
    match kubeClient.Patch sent request with
    | some e => (.err ("failed to patch Kubernetes secret: " ++ e), sent ++ [request])
    | none => (.ok (), sent ++ [request])

/-- The loop `for secretName, dataEntryMap := range k8sSecretsMap.K8sSecrets`. -/
def patchLoop (kubeClient : KubeClient) (podNamespace : Bytes) :
    List (Bytes × List (Bytes × Bytes)) → List PatchRequest → GoResult Unit × List PatchRequest
  | [], sent => (.ok (), sent)
  | (secretName, dataEntryMap) :: rest, sent =>
    match patchK8sSecret kubeClient podNamespace secretName dataEntryMap sent with
    | (.ok _, sent') => patchLoop kubeClient podNamespace rest sent'
    | (.err e, sent') => (.err ("failed to patch k8s secret: " ++ e), sent')
    | (.panic msg, sent') => (.panic msg, sent')

/-- Go function `PatchK8sSecrets(k8sSecretsMap)`; the maps of `k8sSecretsMap` list their
entries in the order `range` visits them. -/
def PatchK8sSecrets (kubeClient : KubeClient) (secrets : K8sSecretsHandler)
    (k8sSecretsMap : K8sSecretsMap) : GoResult Unit × List PatchRequest :=
  patchLoop kubeClient secrets.Config.PodNamespace k8sSecretsMap.K8sSecrets []

/-! ## `VerifyFileExists` and `WaitForFile` -/

/-- What `VerifyFileExists` reads of an `os.FileInfo`: `Mode().IsRegular()`. -/
structure FileInfo where
  isRegular : Bool
  deriving DecidableEq, Repr

/-- What `VerifyFileExists` reads of the error of `os.Stat`: whether
`os.IsNotExist` holds of it, and its message. -/
structure StatError where
  isNotExist : Bool
  message : Error
  deriving DecidableEq, Repr

/-- The two results of `os.Stat(path)`; `none` is Go's `nil`. -/
structure StatResult where
  info : Option FileInfo
  err : Option StatError
  deriving DecidableEq, Repr

/-- The Go `error` a function returns: `ok ()` for `nil`. -/
def returnError (err : Option StatError) : GoResult Unit :=
  match err with
  | none => .ok ()
  | some e => .err e.message

/-- Go function `os.IsNotExist(err)`; it is `false` of the `nil` error. -/
def IsNotExist (err : Option StatError) : Bool :=
  match err with
  | none => false
  | some e => e.isNotExist

/-- Go function `VerifyFileExists(path)`, given the result of its `os.Stat(path)` call. The
condition is evaluated from the left, so `info.Mode()` is called whenever
`os.IsNotExist(err)` is false, and on a `nil` `info` that call panics. -/
def VerifyFileExists (stat : StatResult) : GoResult Unit :=
  if !IsNotExist stat.err then
    match stat.info with
    | none => .panic "invalid memory address or nil pointer dereference"
    | some info => if info.isRegular then .ok () else returnError stat.err
  else returnError stat.err

/-- Modelled from the spec: the `LimitedBackOff` that `NewLimitedBackOff` of
`pkg/utils` builds, which lies outside the three embedded files. The spec has
the predicate run "with exponentially increasing delay starting at a fixed base
interval (1 second), capped at `maxAttempts` attempts"; `retryCount` is the
number of retries granted so far, which the caller reads with `RetryCount()`. -/
structure LimitedBackOff where
  retryInterval : Nat
  retryLimit : Int
  retryCount : Nat
  deriving DecidableEq, Repr

/-- Modelled from the spec: `NewLimitedBackOff(retryInterval, retryLimit)`. -/
def NewLimitedBackOff (retryInterval : Nat) (retryLimit : Int) : LimitedBackOff :=
  ⟨retryInterval, retryLimit, 0⟩

/-- Modelled from the spec: `NextBackOff()` of the limited back-off, asked
after a failed attempt. The attempts made are `retryCount + 1`; once they reach
the limit the answer is `none` (`backoff.Stop`), otherwise the next delay, which
doubles from one retry to the next, and one more retry is counted. -/
def LimitedBackOff.NextBackOff (b : LimitedBackOff) : Option Nat × LimitedBackOff :=
  if b.retryLimit ≤ (b.retryCount : Int) + 1 then (none, b)
  else (some (b.retryInterval * 2 ^ b.retryCount), { b with retryCount := b.retryCount + 1 })

/-- What a run of `backoff.Retry` did: the outcome of the last call of the
operation, the world as the calls of the operation left it, and the delays
slept in between. -/
structure RetryRun (σ : Type) where
  result : GoResult Unit
  world : σ
  delays : List Nat

/-- Go function `backoff.Retry(operation, b)` of `github.com/cenkalti/backoff`: calls the
operation; a `nil` result ends the run, an error asks `b.NextBackOff()` and
either stops with that error or sleeps and starts over. The operation is a Go
closure: a call reads and writes the world `σ` (files, the variables it
captures), and it is given the back-off as it stands (the closure that
`WaitForFile` passes reads `b.RetryCount()` only to decide on a debug line).
Nothing but the calls of the operation changes the world. The loop has no bound
of its own: `fuel` bounds the number of calls, and `none` means it ran out. -/
def Retry {σ : Type} (operation : LimitedBackOff → σ → GoResult Unit × σ) :
    Nat → LimitedBackOff → σ → List Nat → Option (RetryRun σ)
  | 0, _, _, _ => none
  | fuel + 1, b, world, delays =>
    match operation b world with
    | (.ok _, world') => some ⟨.ok (), world', delays⟩
    | (.panic msg, world') => some ⟨.panic msg, world', delays⟩
    | (.err e, world') =>
      match b.NextBackOff with
      | (none, _) => some ⟨.err e, world', delays⟩
      | (some next, b') => Retry operation fuel b' world' (delays ++ [next])

/-- One second, in nanoseconds (`time.Second`). -/
def Second : Nat := 1000000000

/-- Go function `WaitForFile(path, retryCountLimit, verifyFileExistsFunc)`, run in the
world `world`. A verification function is a Go function value: a call takes the
path and the world and gives its result and the world it leaves; `none` is Go's
`nil` function value, replaced by `VerifyFileExists`, whose `os.Stat` call is
`stat`. `recordedError` is `log.RecordedError(log.CAKC033, retryCountLimit, path)`.
The result is that of the function together with the world it leaves, which
only the calls of the verification function have changed. -/
def WaitForFile {σ : Type} (stat : Bytes → σ → StatResult × σ)
    (recordedError : Int → Bytes → Error) (path : Bytes) (retryCountLimit : Int)
    (verifyFileExistsFunc : Option (Bytes → σ → GoResult Unit × σ)) (world : σ) (fuel : Nat) :
    Option (GoResult Unit × σ) :=
  let verify : Bytes → σ → GoResult Unit × σ :=
    match verifyFileExistsFunc with
    | none => fun p w => (VerifyFileExists (stat p w).1, (stat p w).2)
    | some f => f
  let limitedBackOff := NewLimitedBackOff Second retryCountLimit
  match Retry (fun _ w => verify path w) fuel limitedBackOff world [] with
  | none => none
  | some run =>
    match run.result with
    | .ok _ => some (.ok (), run.world)
    | .err _ => some (.err (recordedError retryCountLimit path), run.world)
    | .panic msg => some (.panic msg, run.world)

/-- A verification function that does what `verify` does and, at each call, also
appends the path it was called with to a record of its calls, kept in the world
next to the world of `verify`. -/
def recordCalls {σ : Type} (verify : Bytes → σ → GoResult Unit × σ) :
    Bytes → σ × List Bytes → GoResult Unit × (σ × List Bytes) :=
  fun path w => ((verify path w.1).1, ((verify path w.1).2, w.2 ++ [path]))

/-- A verification function over a world that is a counter of its calls: it
fails at every call and adds one to the counter. -/
def failAndCount : Bytes → Nat → GoResult Unit × Nat :=
  fun _ calls => (.err "no such file", calls + 1)

/-! ## `Authenticate` -/

/-- The fields of `authnConfig.Config` that the authenticator reads. -/
structure AuthnConfig where
  Account : Bytes
  Username : Bytes
  URL : Bytes
  SSLCertificate : Bytes

/-- The collaborators of the authenticator that lie outside the three embedded
files, as functions: the HTTPS client and its `Do`, the two request builders of
the package, `utils.ValidateResponse`, `utils.ReadResponseBody`,
`log.RecordedError(log.CAKC027, err)`, `os.Getenv` and `strings.ToLower`. -/
structure Transport (Client Request Response : Type) where
  newHTTPSClient : Bytes → Except Error Client
  MetadataRequest : Bytes → Bytes → Except Error Request
  AuthenticateRequest : Bytes → Bytes → Bytes → Bool → Except Error Request
  Do : Client → Request → Except Error Response
  ValidateResponse : Response → Option Error
  ReadResponseBody : Response → Except Error Bytes
  CAKC027 : Error → Error
  Getenv : Bytes → Bytes
  ToLower : Bytes → Bytes

/-- The interface `access_token.AccessToken`, reduced to `Write`, over a store
with states `σ`: the error returned, if any, and the store afterwards. -/
structure AccessToken (σ : Type) where
  Write : Bytes → σ → Option Error × σ

/-- Go struct `Authenticator`. -/
structure Authenticator (σ : Type) where
  AccessToken : AccessToken σ
  Config : AuthnConfig

/-- Go function `sendMetadataRequest()`. -/
def sendMetadataRequest {Client Request Response σ : Type}
    (net : Transport Client Request Response) (auth : Authenticator σ) : Except Error Bytes :=
  match net.newHTTPSClient auth.Config.SSLCertificate with
  | .error e => .error e
  | .ok client =>
    match net.MetadataRequest auth.Config.Account auth.Config.Username with
    | .error e => .error e
    | .ok req =>
      match net.Do client req with
      | .error e => .error (net.CAKC027 e)
      | .ok resp =>
        match net.ValidateResponse resp with
        | some e => .error e
        | none => net.ReadResponseBody resp

/-- Go function `sendAuthenticationRequest(sessionToken)`. -/
def sendAuthenticationRequest {Client Request Response σ : Type}
    (net : Transport Client Request Response) (auth : Authenticator σ)
    (sessionToken : Bytes) : Except Error Bytes :=
  match net.newHTTPSClient auth.Config.SSLCertificate with
  | .error e => .error e
  | .ok client =>
    let base64Token : Bool :=
      decide (net.ToLower (net.Getenv (bytesOf "CONJUR_BASE64_TOKEN")) = bytesOf "true")
    match net.AuthenticateRequest auth.Config.URL auth.Config.Account sessionToken
        base64Token with
    | .error e => .error e
    | .ok req =>
      match net.Do client req with
      | .error e => .error (net.CAKC027 e)
      | .ok resp =>
        match net.ValidateResponse resp with
        | some e => .error e
        | none => net.ReadResponseBody resp

/-- What a call of `Authenticate` did: the error returned (`none` for `nil`),
the store afterwards, and the arguments of its `AccessToken.Write` calls. -/
structure AuthRun (σ : Type) where
  err : Option Error
  store : σ
  writes : List Bytes

/-- Go function `Authenticate()`, from the store state `store`. -/
def Authenticate {Client Request Response σ : Type}
    (net : Transport Client Request Response) (auth : Authenticator σ) (store : σ) :
    AuthRun σ :=
  match sendMetadataRequest net auth with
  | .error e => ⟨some e, store, []⟩
  | .ok sessionToken =>
    match sendAuthenticationRequest net auth sessionToken with
    | .error e => ⟨some e, store, []⟩
    | .ok authenticationResponse =>
      match auth.AccessToken.Write authenticationResponse store with
      | (some e, store') => ⟨some e, store', [authenticationResponse]⟩
      | (none, store') => ⟨none, store', [authenticationResponse]⟩

/-! ## The payload as the spec writes it -/

/-- One entry of the payload as the spec writes it: the key and the value, each
between double quotes, with a colon in between. -/
def entryBytes (kv : Bytes × Bytes) : Bytes :=
  bytesOf "\"" ++ kv.1 ++ bytesOf "\":\"" ++ kv.2 ++ bytesOf "\""

/-- The payload the spec prescribes for the entries `m`: the entries joined by
commas, inside the `stringData` object. -/
def payloadOf (m : List (Bytes × Bytes)) : Bytes :=
  bytesOf "\x7b\"stringData\":\x7b" ++ (bytesOf ",").intercalate (m.map entryBytes)
    ++ bytesOf "\x7d\x7d"

/-- A cluster that holds one secret, `secretName` with the data `data`, answers
"not found" for every other name, and accepts every patch. -/
def clusterWith (secretName : Bytes) (data : List (Bytes × Bytes)) : KubeClient where
  Get := fun _ name => if name = secretName then .ok ⟨data⟩ else .error "not found"
  Patch := fun _ _ => none

/-- A cluster without secrets that rejects the patches of the secret
`rejected` and accepts all others. -/
def clusterRejecting (rejected : Bytes) : KubeClient where
  Get := fun _ _ => .error "not found"
  Patch := fun _ request => if request.secretName = rejected then some "forbidden" else none

/-! ## A provisioning cycle as the spec describes it -/

/-- A manifest line is well formed when its key and its variable id hold
neither the delimiter `": "` nor a newline, so that the line `key: variableId`
holds exactly one delimiter. -/
def WellFormedLine (kv : Bytes × Bytes) : Prop :=
  ¬ bytesOf ": " <:+: kv.1 ∧ ¬ bytesOf ": " <:+: kv.2 ∧ 10 ∉ kv.1 ∧ 10 ∉ kv.2

/-- The manifest line `key: variableId`. -/
def manifestLine (kv : Bytes × Bytes) : Bytes := kv.1 ++ bytesOf ": " ++ kv.2

/-- The value of `conjur-map` made of the given (key, variable id) pairs: their
lines, separated by newlines. -/
def conjurMapOf (lines : List (Bytes × Bytes)) : Bytes :=
  (bytesOf "\n").intercalate (lines.map manifestLine)

/-- The place `secretName:key` recorded in `PathMap`. -/
def pathOf (secretName key : Bytes) : Bytes := secretName ++ bytesOf ":" ++ key

/-- The secrets `required` of a cluster carry the manifests `manifest`: each of
them is retrieved, its data has one entry per key, and its `conjur-map` entry is
absent when `manifest` gives no line for it and is otherwise the newline-separated
well-formed lines that `manifest` gives. -/
def CarriesManifests (kubeClient : KubeClient) (podNamespace : Bytes) (required : List Bytes)
    (manifest : Bytes → List (Bytes × Bytes)) : Prop :=
  ∀ secretName ∈ required, ∃ k8sSecret,
    kubeClient.Get podNamespace secretName = .ok k8sSecret
    ∧ (k8sSecret.Data.map (fun e => e.1)).Nodup
    ∧ (∀ kv ∈ manifest secretName, WellFormedLine kv)
    ∧ ((manifest secretName = [] ∧ GoMap.lookup k8sSecret.Data CONJUR_MAP_KEY = none)
      ∨ (manifest secretName ≠ []
        ∧ GoMap.lookup k8sSecret.Data CONJUR_MAP_KEY = some (conjurMapOf (manifest secretName))))

/-- The manifest entries of a cycle in processing order: the required secrets in
their order, the lines of each in line order; each as (secret name, key,
variable id). -/
def cycleEntries (required : List Bytes) (manifest : Bytes → List (Bytes × Bytes)) :
    List (Bytes × Bytes × Bytes) :=
  required.flatMap (fun secretName => (manifest secretName).map (fun kv => (secretName, kv.1, kv.2)))

/-- The assignments `m[e.1] = e.2` for the entries `e` of a list, first to last. -/
def GoMap.assignAll {β : Type} (m : GoMap β) (l : List (Bytes × β)) : GoMap β :=
  l.foldl (fun m e => GoMap.assign m e.1 e.2) m

/-- The `PathMap` assignment `pathMap[variableId] = secretName:key` of a manifest
entry (secret name, key, variable id). -/
def pathAssignment (e : Bytes × Bytes × Bytes) : Bytes × Bytes := (e.2.2, pathOf e.1 e.2.1)

/-- The `K8sSecrets` assignments of a cycle: for each required secret with at
least one manifest line, in order, its name and its new data entries. -/
def secretAssignments (required : List Bytes) (manifest : Bytes → List (Bytes × Bytes)) :
    List (Bytes × GoMap Bytes) :=
  (required.filter (fun secretName => !(manifest secretName).isEmpty)).map
    (fun secretName => (secretName, GoMap.assignAll [] (manifest secretName)))

/-! ## Concrete collaborators for the examples -/

/-- A token store that keeps the last bytes written and never fails. -/
def fileToken : AccessToken (Option Bytes) where
  Write := fun token _ => (none, some token)

/-- A transport whose requests are their bodies and whose responses are a status
code with a body: the metadata endpoint answers 200 with `idtoken`, the vault
answers with the status `vaultStatus` and the body `session`; a response is
valid when its status is 2xx. -/
def stubTransport (vaultStatus : Nat) : Transport Unit Bytes (Nat × Bytes) where
  newHTTPSClient := fun _ => .ok ()
  MetadataRequest := fun _ _ => .ok (bytesOf "metadata")
  AuthenticateRequest := fun _ _ sessionToken _ => .ok sessionToken
  Do := fun _ req =>
    if req = bytesOf "metadata" then .ok (200, bytesOf "idtoken")
    else .ok (vaultStatus, bytesOf "session")
  ValidateResponse := fun resp =>
    if 200 ≤ resp.1 ∧ resp.1 < 300 then none else some "unexpected status"
  ReadResponseBody := fun resp => .ok resp.2
  CAKC027 := fun e => "CAKC027 " ++ e
  Getenv := fun _ => []
  ToLower := fun s => s

/-- An authenticator over `fileToken`. -/
def stubAuthenticator : Authenticator (Option Bytes) where
  AccessToken := fileToken
  Config := ⟨bytesOf "acct", bytesOf "host/app", bytesOf "https://vault", []⟩

/-- The manifest of the round-trip example of the spec: `secretX` maps `user` to
`var1` and `pass` to `var2`. -/
def exampleManifest (secretName : Bytes) : List (Bytes × Bytes) :=
  if secretName = bytesOf "secretX" then
    [(bytesOf "user", bytesOf "var1"), (bytesOf "pass", bytesOf "var2")]
  else []

/-- A manifest in which `secretX` maps both `user` and `login` to `var1`. -/
def duplicateManifest (secretName : Bytes) : List (Bytes × Bytes) :=
  if secretName = bytesOf "secretX" then
    [(bytesOf "user", bytesOf "var1"), (bytesOf "login", bytesOf "var1")]
  else []

/-! # Properties -/

/-! ## The patch payload -/

theorem byteSlicePrintf_entry (key value : Bytes) :
    ByteSlicePrintf entryFormat placeholderV [key, value] = entryBytes (key, value) := by
  have h : Split entryFormat placeholderV = [bytesOf "\"", bytesOf "\":\"", bytesOf "\""] := by
    decide
  simp [ByteSlicePrintf, h, fillPlaceholders, entryBytes]
  rfl

theorem byteSlicePrintf_comma (a b : Bytes) :
    ByteSlicePrintf commaFormat placeholderV [a, b] = a ++ bytesOf "," ++ b := by
  have h : Split commaFormat placeholderV = [[], bytesOf ",", []] := by decide
  simp [ByteSlicePrintf, h, fillPlaceholders]
  rfl

theorem byteSlicePrintf_wrap (a : Bytes) :
    ByteSlicePrintf wrapFormat placeholderV [a]
      = bytesOf "\x7b\"stringData\":\x7b" ++ a ++ bytesOf "\x7d\x7d" := by
  have h : Split wrapFormat placeholderV
      = [bytesOf "\x7b\"stringData\":\x7b", bytesOf "\x7d\x7d"] := by decide
  simp [ByteSlicePrintf, h, fillPlaceholders]
  rfl

theorem intercalate_snoc (sep : Bytes) (l : List Bytes) (x : Bytes) (h : l ≠ []) :
    sep.intercalate (l ++ [x]) = sep.intercalate l ++ sep ++ x := by
  induction l with
  | nil => exact absurd rfl h
  | cons a t ih =>
    cases t with
    | nil => simp [List.intercalate, List.intersperse]
    | cons b t =>
      have := ih (by simp)
      simp [List.intercalate, List.intersperse] at this ⊢
      exact this

theorem fillEntries_eq (rest : List (Bytes × Bytes)) (pre : List Bytes) :
    fillEntries rest (pre ++ List.replicate rest.length []) pre.length
      = pre ++ rest.map entryBytes := by
  induction rest generalizing pre with
  | nil => simp [fillEntries]
  | cons kv rest ih =>
    obtain ⟨key, value⟩ := kv
    have := ih (pre ++ [entryBytes (key, value)])
    simp [fillEntries, byteSlicePrintf_entry, List.replicate_succ] at this ⊢
    exact this

theorem combineEntries_eq (orig : List Bytes) (k i : Nat) (entries : List Bytes)
    (combined : Bytes) (hik : i + k = orig.length)
    (hent : ∀ j, i ≤ j → entries[j]? = orig[j]?)
    (hcomb : combined = (bytesOf ",").intercalate (orig.take (i + 1))) :
    combineEntries orig.length (List.range' i k) combined entries
      = .ok ((bytesOf ",").intercalate orig) := by
  induction k generalizing i entries combined with
  | zero =>
    simp only [List.range', combineEntries]
    rw [hcomb, List.take_of_length_le (by omega)]
  | succ k ih =>
    simp only [List.range', combineEntries]
    have hent' : ∀ j, i + 1 ≤ j → (entries.set i [])[j]? = orig[j]? := by
      intro j hj
      rw [List.getElem?_set_ne (by omega)]
      exact hent j (by omega)
    by_cases hlt : i < orig.length - 1
    · rw [if_pos hlt]
      have hi1 : i + 1 < orig.length := by omega
      have hnext : entries[i + 1]? = some orig[i + 1] := by
        rw [hent (i + 1) (by omega), List.getElem?_eq_getElem hi1]
      rw [hnext]
      simp only []
      apply ih (i + 1) _ _ (by omega) hent'
      have htake : orig.take (i + 1 + 1) = orig.take (i + 1) ++ [orig[i + 1]] := by
        rw [List.take_succ, List.getElem?_eq_getElem hi1]
        rfl
      rw [byteSlicePrintf_comma, hcomb, htake, intercalate_snoc]
      intro h0
      have := congrArg List.length h0
      simp only [List.length_take, List.length_nil] at this
      omega
    · rw [if_neg hlt]
      apply ih (i + 1) _ _ (by omega) hent'
      rw [hcomb, List.take_of_length_le (by omega), List.take_of_length_le (by omega)]

theorem generateStringDataEntry_eq (m : List (Bytes × Bytes)) (h : m ≠ []) :
    generateStringDataEntry m = .ok (payloadOf m) := by
  have hlen : m.length ≠ 0 := by
    intro h0
    exact h (List.length_eq_zero.mp h0)
  have hfill := fillEntries_eq m []
  simp only [List.nil_append, List.length_nil] at hfill
  unfold generateStringDataEntry
  rw [if_neg hlen]
  simp only [hfill]
  obtain ⟨kv, rest, rfl⟩ := List.exists_cons_of_ne_nil h
  have hc := combineEntries_eq ((kv :: rest).map entryBytes) ((kv :: rest).map entryBytes).length 0
    ((kv :: rest).map entryBytes) (entryBytes kv) (by simp) (fun _ _ => rfl)
    (by simp [List.intercalate, List.intersperse])
  rw [← List.range_eq_range'] at hc
  simp only [List.map_cons, List.getElem?_cons_zero] at hc ⊢
  rw [hc]
  simp only [byteSlicePrintf_wrap, payloadOf, List.map_cons]

theorem generateStringDataEntry_nil :
    generateStringDataEntry [] = .err "error map should not be empty" := rfl

/-- C1: for every non-empty field map, whatever the order `visited` in which
`range` goes through its entries `fields`, `generateStringDataEntry` returns
without error the bytes `{"stringData":{` ++ E_1 ++ `,` ++ ... ++ `,` ++ E_n ++ `}}`,
the E_i being the entries of the map, each once, in the visited order, and each
of the form `"` ++ key ++ `":"` ++ value ++ `"`; for user=alice, pass=s3cr3t in
that order the result is `{"stringData":{"user":"alice","pass":"s3cr3t"}}`. -/
theorem generateStringDataEntry_payload (fields visited : List (Bytes × Bytes))
    (hvisit : visited.Perm fields) (hne : fields ≠ []) :
    generateStringDataEntry visited = .ok (payloadOf visited)
    ∧ (visited.map entryBytes).Perm (fields.map entryBytes)
    ∧ generateStringDataEntry [(bytesOf "user", bytesOf "alice"), (bytesOf "pass", bytesOf "s3cr3t")]
        = .ok (bytesOf "\x7b\"stringData\":\x7b\"user\":\"alice\",\"pass\":\"s3cr3t\"\x7d\x7d") := by
  refine ⟨generateStringDataEntry_eq visited ?_, hvisit.map entryBytes, by decide⟩
  intro h
  rw [h] at hvisit
  exact hne (List.Perm.nil_eq hvisit).symm

theorem generateStringDataEntry_payload_witness :
    generateStringDataEntry [(bytesOf "pass", bytesOf "s3cr3t"), (bytesOf "user", bytesOf "alice")]
      = .ok (bytesOf "\x7b\"stringData\":\x7b\"pass\":\"s3cr3t\",\"user\":\"alice\"\x7d\x7d") :=
  (generateStringDataEntry_payload
    [(bytesOf "user", bytesOf "alice"), (bytesOf "pass", bytesOf "s3cr3t")]
    [(bytesOf "pass", bytesOf "s3cr3t"), (bytesOf "user", bytesOf "alice")]
    (List.Perm.swap _ _ _) (by decide)).1.trans (by decide)

/-- C10: field names and values are inserted verbatim, without JSON escaping, so
`generateStringDataEntry` is not injective: the one-field map `a` ↦ `x","b":"y`
and the two-field map `a` ↦ `x`, `b` ↦ `y` (visited in this order) are different
maps with the same payload `{"stringData":{"a":"x","b":"y"}}`. -/
theorem generateStringDataEntry_not_injective :
    generateStringDataEntry [(bytesOf "a", bytesOf "x\",\"b\":\"y")]
      = .ok (bytesOf "\x7b\"stringData\":\x7b\"a\":\"x\",\"b\":\"y\"\x7d\x7d")
    ∧ generateStringDataEntry [(bytesOf "a", bytesOf "x"), (bytesOf "b", bytesOf "y")]
      = .ok (bytesOf "\x7b\"stringData\":\x7b\"a\":\"x\",\"b\":\"y\"\x7d\x7d")
    ∧ [(bytesOf "a", bytesOf "x\",\"b\":\"y")].length
      ≠ [(bytesOf "a", bytesOf "x"), (bytesOf "b", bytesOf "y")].length
    ∧ ¬ Function.Injective generateStringDataEntry := by
  refine ⟨by decide, by decide, by decide, ?_⟩
  intro hinj
  have h : [(bytesOf "a", bytesOf "x\",\"b\":\"y")]
      = [(bytesOf "a", bytesOf "x"), (bytesOf "b", bytesOf "y")] := hinj (by decide)
  exact absurd h (by decide)

/-! ## Patching -/

theorem patchK8sSecret_nil (kubeClient : KubeClient) (podNamespace secretName : Bytes)
    (sent : List PatchRequest) :
    patchK8sSecret kubeClient podNamespace secretName [] sent
      = (.err "failed to parse Kubernetes secret list: error map should not be empty", sent) :=
  rfl

theorem patchK8sSecret_cons (kubeClient : KubeClient) (podNamespace secretName : Bytes)
    (m : List (Bytes × Bytes)) (hne : m ≠ []) (sent : List PatchRequest) :
    patchK8sSecret kubeClient podNamespace secretName m sent
      = match kubeClient.Patch sent ⟨podNamespace, secretName, payloadOf m⟩ with
        | some e => (.err ("failed to patch Kubernetes secret: " ++ e),
            sent ++ [⟨podNamespace, secretName, payloadOf m⟩])
        | none => (.ok (), sent ++ [⟨podNamespace, secretName, payloadOf m⟩]) := by
  simp only [patchK8sSecret, generateStringDataEntry_eq m hne]

/-- A call of `patchK8sSecret` ends with `nil` or with an error, and adds at most
its own request to the requests made. -/
theorem patchK8sSecret_cases (kubeClient : KubeClient) (podNamespace secretName : Bytes)
    (m : List (Bytes × Bytes)) (sent : List PatchRequest) :
    (∃ e, patchK8sSecret kubeClient podNamespace secretName m sent = (.err e, sent))
    ∨ (∃ e, patchK8sSecret kubeClient podNamespace secretName m sent
        = (.err e, sent ++ [⟨podNamespace, secretName, payloadOf m⟩]))
    ∨ patchK8sSecret kubeClient podNamespace secretName m sent
        = (.ok (), sent ++ [⟨podNamespace, secretName, payloadOf m⟩]) := by
  by_cases hm : m = []
  · subst hm
    exact Or.inl ⟨_, patchK8sSecret_nil kubeClient podNamespace secretName sent⟩
  · rw [patchK8sSecret_cons kubeClient podNamespace secretName m hm sent]
    cases kubeClient.Patch sent ⟨podNamespace, secretName, payloadOf m⟩ with
    | none => exact Or.inr (Or.inr rfl)
    | some e => exact Or.inr (Or.inl ⟨_, rfl⟩)

theorem patchLoop_cons_ok (kubeClient : KubeClient) (podNamespace : Bytes)
    (d : Bytes × List (Bytes × Bytes)) (rest : List (Bytes × List (Bytes × Bytes)))
    (sent sent' : List PatchRequest)
    (h : patchK8sSecret kubeClient podNamespace d.1 d.2 sent = (.ok (), sent')) :
    patchLoop kubeClient podNamespace (d :: rest) sent
      = patchLoop kubeClient podNamespace rest sent' := by
  obtain ⟨name, m⟩ := d
  simp only [patchLoop]
  simp only [] at h
  rw [h]

theorem patchLoop_cons_err (kubeClient : KubeClient) (podNamespace : Bytes)
    (d : Bytes × List (Bytes × Bytes)) (rest : List (Bytes × List (Bytes × Bytes)))
    (sent sent' : List PatchRequest) (e : Error)
    (h : patchK8sSecret kubeClient podNamespace d.1 d.2 sent = (.err e, sent')) :
    patchLoop kubeClient podNamespace (d :: rest) sent
      = (.err ("failed to patch k8s secret: " ++ e), sent') := by
  obtain ⟨name, m⟩ := d
  simp only [patchLoop]
  simp only [] at h
  rw [h]

/-- The loop over `pre ++ post` is the loop over `post` after a successful loop
over `pre`. -/
theorem patchLoop_append_ok (kubeClient : KubeClient) (podNamespace : Bytes)
    (pre post : List (Bytes × List (Bytes × Bytes))) (sent sent' : List PatchRequest)
    (h : patchLoop kubeClient podNamespace pre sent = (.ok (), sent')) :
    patchLoop kubeClient podNamespace (pre ++ post) sent
      = patchLoop kubeClient podNamespace post sent' := by
  induction pre generalizing sent with
  | nil =>
    simp only [patchLoop, Prod.mk.injEq, true_and] at h
    rw [List.nil_append, h]
  | cons d pre ih =>
    rcases patchK8sSecret_cases kubeClient podNamespace d.1 d.2 sent with
      ⟨e, he⟩ | ⟨e, he⟩ | hok
    · rw [patchLoop_cons_err _ _ _ _ _ _ _ he] at h
      simp at h
    · rw [patchLoop_cons_err _ _ _ _ _ _ _ he] at h
      simp at h
    · rw [patchLoop_cons_ok _ _ _ _ _ _ hok] at h
      rw [List.cons_append, patchLoop_cons_ok _ _ _ _ _ _ hok]
      exact ih _ h

/-- A loop that ends with `nil` has patched its first destination and then
looped with `nil` over the others. -/
theorem patchLoop_ok_cons (kubeClient : KubeClient) (podNamespace : Bytes)
    (d : Bytes × List (Bytes × Bytes)) (rest : List (Bytes × List (Bytes × Bytes)))
    (sent final : List PatchRequest)
    (h : patchLoop kubeClient podNamespace (d :: rest) sent = (.ok (), final)) :
    patchK8sSecret kubeClient podNamespace d.1 d.2 sent
        = (.ok (), sent ++ [⟨podNamespace, d.1, payloadOf d.2⟩])
    ∧ patchLoop kubeClient podNamespace rest (sent ++ [⟨podNamespace, d.1, payloadOf d.2⟩])
        = (.ok (), final) := by
  rcases patchK8sSecret_cases kubeClient podNamespace d.1 d.2 sent with
    ⟨e, he⟩ | ⟨e, he⟩ | hok
  · rw [patchLoop_cons_err _ _ _ _ _ _ _ he] at h
    simp at h
  · rw [patchLoop_cons_err _ _ _ _ _ _ _ he] at h
    simp at h
  · rw [patchLoop_cons_ok _ _ _ _ _ _ hok] at h
    exact ⟨hok, h⟩

theorem patchLoop_ok_split (kubeClient : KubeClient) (podNamespace : Bytes)
    (pre : List (Bytes × List (Bytes × Bytes))) (d : Bytes × List (Bytes × Bytes))
    (post : List (Bytes × List (Bytes × Bytes))) (sent final : List PatchRequest)
    (h : patchLoop kubeClient podNamespace (pre ++ d :: post) sent = (.ok (), final)) :
    ∃ sent₁, patchLoop kubeClient podNamespace pre sent = (.ok (), sent₁)
      ∧ patchK8sSecret kubeClient podNamespace d.1 d.2 sent₁
        = (.ok (), sent₁ ++ [⟨podNamespace, d.1, payloadOf d.2⟩]) := by
  induction pre generalizing sent with
  | nil =>
    exact ⟨sent, rfl, (patchLoop_ok_cons _ _ _ _ _ _ h).1⟩
  | cons c pre ih =>
    rw [List.cons_append] at h
    obtain ⟨hc, hrest⟩ := patchLoop_ok_cons _ _ _ _ _ _ h
    obtain ⟨sent₁, hpre, hd⟩ := ih _ hrest
    exact ⟨sent₁, by rw [patchLoop_cons_ok _ _ _ _ _ _ hc]; exact hpre, hd⟩

theorem patchLoop_empty_destination (kubeClient : KubeClient) (podNamespace : Bytes)
    (ds : List (Bytes × List (Bytes × Bytes))) (sent : List PatchRequest)
    (h : ∃ d ∈ ds, d.2 = []) :
    ∃ e, (patchLoop kubeClient podNamespace ds sent).1 = .err e := by
  induction ds generalizing sent with
  | nil =>
    obtain ⟨d, hd, _⟩ := h
    exact absurd hd (List.not_mem_nil d)
  | cons c ds ih =>
    rcases patchK8sSecret_cases kubeClient podNamespace c.1 c.2 sent with
      ⟨e, he⟩ | ⟨e, he⟩ | hok
    · exact ⟨_, by rw [patchLoop_cons_err _ _ _ _ _ _ _ he]⟩
    · exact ⟨_, by rw [patchLoop_cons_err _ _ _ _ _ _ _ he]⟩
    · rw [patchLoop_cons_ok _ _ _ _ _ _ hok]
      apply ih
      obtain ⟨d, hd, hempty⟩ := h
      rcases List.mem_cons.mp hd with hdc | hds
      · subst hdc
        rw [hempty, patchK8sSecret_nil] at hok
        simp at hok
      · exact ⟨d, hds, hempty⟩

theorem patchLoop_ok_names (kubeClient : KubeClient) (podNamespace : Bytes)
    (ds : List (Bytes × List (Bytes × Bytes))) (sent final : List PatchRequest)
    (h : patchLoop kubeClient podNamespace ds sent = (.ok (), final)) :
    final.map (fun r => r.secretName)
      = sent.map (fun r => r.secretName) ++ ds.map (fun c => c.1) := by
  induction ds generalizing sent with
  | nil =>
    simp only [patchLoop, Prod.mk.injEq, true_and] at h
    simp [h]
  | cons c ds ih =>
    obtain ⟨_, hrest⟩ := patchLoop_ok_cons _ _ _ _ _ _ h
    rw [ih _ hrest]
    simp

/-- C6: `patchK8sSecret` called with an empty field map returns the error of
`generateStringDataEntry` ("map should not be empty") and makes no `Patch`
request, for every namespace, secret name and cluster; and `PatchK8sSecrets`
returns an error for every `K8sSecretsMap` with a destination of zero fields. -/
theorem patchK8sSecret_empty_payload (kubeClient : KubeClient) (secrets : K8sSecretsHandler)
    (podNamespace secretName : Bytes) (sent : List PatchRequest)
    (k8sSecretsMap : K8sSecretsMap) (hempty : ∃ d ∈ k8sSecretsMap.K8sSecrets, d.2 = []) :
    patchK8sSecret kubeClient podNamespace secretName [] sent
      = (.err "failed to parse Kubernetes secret list: error map should not be empty", sent)
    ∧ ∃ e, (PatchK8sSecrets kubeClient secrets k8sSecretsMap).1 = .err e :=
  ⟨patchK8sSecret_nil kubeClient podNamespace secretName sent,
    patchLoop_empty_destination kubeClient _ _ [] hempty⟩

theorem patchK8sSecret_empty_payload_witness :
    patchK8sSecret (clusterRejecting []) (bytesOf "ns") (bytesOf "db") [] []
      = (.err "failed to parse Kubernetes secret list: error map should not be empty", [])
    ∧ PatchK8sSecrets (clusterRejecting []) ⟨⟨bytesOf "ns", []⟩, []⟩
        ⟨[(bytesOf "app", [(bytesOf "user", bytesOf "alice")]), (bytesOf "db", [])], []⟩
      = (.err ("failed to patch k8s secret: failed to parse Kubernetes secret list: "
            ++ "error map should not be empty"),
          [⟨bytesOf "ns", bytesOf "app", payloadOf [(bytesOf "user", bytesOf "alice")]⟩]) := by
  obtain ⟨h1, _, _⟩ := patchK8sSecret_empty_payload (clusterRejecting [])
    ⟨⟨bytesOf "ns", []⟩, []⟩ (bytesOf "ns") (bytesOf "db") []
    ⟨[(bytesOf "app", [(bytesOf "user", bytesOf "alice")]), (bytesOf "db", [])], []⟩
    ⟨(bytesOf "db", []), by decide, rfl⟩
  exact ⟨h1, by decide⟩

/-- C9: `PatchK8sSecrets` is fail-fast, for every `K8sSecretsMap` and every order
in which its destinations are visited. If a destination `d` is the first whose
patch fails (the loop over the destinations `pre` before it ended with `nil`,
and `patchK8sSecret` returned an error for `d`), then `PatchK8sSecrets` returns
an error and has made exactly the requests made up to that failure: one for
each destination of `pre`, at most one for `d`, none for the destinations
`post` that come after. And it returns `nil` only if the patch of every
destination returned `nil`, after one accepted request. -/
theorem PatchK8sSecrets_fail_fast (kubeClient : KubeClient) (secrets : K8sSecretsHandler)
    (k8sSecretsMap : K8sSecretsMap)
    (pre : List (Bytes × List (Bytes × Bytes))) (d : Bytes × List (Bytes × Bytes))
    (post : List (Bytes × List (Bytes × Bytes)))
    (hsplit : k8sSecretsMap.K8sSecrets = pre ++ d :: post) :
    (∀ sent₁ sent₂ e,
      patchLoop kubeClient secrets.Config.PodNamespace pre [] = (.ok (), sent₁) →
      patchK8sSecret kubeClient secrets.Config.PodNamespace d.1 d.2 sent₁ = (.err e, sent₂) →
      PatchK8sSecrets kubeClient secrets k8sSecretsMap
          = (.err ("failed to patch k8s secret: " ++ e), sent₂)
        ∧ sent₁.map (fun r => r.secretName) = pre.map (fun c => c.1)
        ∧ (sent₂ = sent₁ ∨ sent₂ = sent₁ ++
            [⟨secrets.Config.PodNamespace, d.1, payloadOf d.2⟩]))
    ∧ ((PatchK8sSecrets kubeClient secrets k8sSecretsMap).1 = .ok () →
      ∃ sent₁, patchLoop kubeClient secrets.Config.PodNamespace pre [] = (.ok (), sent₁)
        ∧ patchK8sSecret kubeClient secrets.Config.PodNamespace d.1 d.2 sent₁
          = (.ok (), sent₁ ++ [⟨secrets.Config.PodNamespace, d.1, payloadOf d.2⟩])
        ∧ kubeClient.Patch sent₁ ⟨secrets.Config.PodNamespace, d.1, payloadOf d.2⟩ = none) := by
  constructor
  · intro sent₁ sent₂ e hpre hd
    refine ⟨?_, ?_, ?_⟩
    · unfold PatchK8sSecrets
      rw [hsplit, patchLoop_append_ok _ _ _ _ _ _ hpre, patchLoop_cons_err _ _ _ _ _ _ _ hd]
    · simpa using patchLoop_ok_names _ _ _ _ _ hpre
    · rcases patchK8sSecret_cases kubeClient secrets.Config.PodNamespace d.1 d.2 sent₁ with
        ⟨e', he⟩ | ⟨e', he⟩ | hok
      · rw [he] at hd
        exact Or.inl (Prod.mk.inj hd).2.symm
      · rw [he] at hd
        exact Or.inr (Prod.mk.inj hd).2.symm
      · rw [hok] at hd
        simp at hd
  · intro hok
    have hrun : patchLoop kubeClient secrets.Config.PodNamespace (pre ++ d :: post) []
        = (.ok (), (PatchK8sSecrets kubeClient secrets k8sSecretsMap).2) := by
      rw [← hsplit, ← hok]
      rfl
    obtain ⟨sent₁, hpre, hd⟩ := patchLoop_ok_split _ _ _ _ _ _ _ hrun
    refine ⟨sent₁, hpre, hd, ?_⟩
    by_cases hm : d.2 = []
    · rw [hm, patchK8sSecret_nil] at hd
      simp at hd
    · rw [patchK8sSecret_cons _ _ _ _ hm] at hd
      cases hp : kubeClient.Patch sent₁ ⟨secrets.Config.PodNamespace, d.1, payloadOf d.2⟩ with
      | none => rfl
      | some e =>
        rw [hp] at hd
        simp at hd

theorem PatchK8sSecrets_fail_fast_witness :
    (PatchK8sSecrets (clusterRejecting (bytesOf "db")) ⟨⟨bytesOf "ns", []⟩, []⟩
        ⟨[(bytesOf "app", [(bytesOf "user", bytesOf "alice")]),
          (bytesOf "db", [(bytesOf "pass", bytesOf "s3cr3t")]),
          (bytesOf "cache", [(bytesOf "key", bytesOf "k")])], []⟩
      = (.err "failed to patch k8s secret: failed to patch Kubernetes secret: forbidden",
          [⟨bytesOf "ns", bytesOf "app", payloadOf [(bytesOf "user", bytesOf "alice")]⟩,
           ⟨bytesOf "ns", bytesOf "db", payloadOf [(bytesOf "pass", bytesOf "s3cr3t")]⟩]))
    ∧ (clusterRejecting (bytesOf "none")).Patch
        [⟨bytesOf "ns", bytesOf "app", payloadOf [(bytesOf "user", bytesOf "alice")]⟩]
        ⟨bytesOf "ns", bytesOf "db", payloadOf [(bytesOf "pass", bytesOf "s3cr3t")]⟩ = none :=
  ⟨((PatchK8sSecrets_fail_fast (clusterRejecting (bytesOf "db")) ⟨⟨bytesOf "ns", []⟩, []⟩
      ⟨[(bytesOf "app", [(bytesOf "user", bytesOf "alice")]),
        (bytesOf "db", [(bytesOf "pass", bytesOf "s3cr3t")]),
        (bytesOf "cache", [(bytesOf "key", bytesOf "k")])], []⟩
      [(bytesOf "app", [(bytesOf "user", bytesOf "alice")])]
      (bytesOf "db", [(bytesOf "pass", bytesOf "s3cr3t")])
      [(bytesOf "cache", [(bytesOf "key", bytesOf "k")])] rfl).1
    [⟨bytesOf "ns", bytesOf "app", payloadOf [(bytesOf "user", bytesOf "alice")]⟩]
    [⟨bytesOf "ns", bytesOf "app", payloadOf [(bytesOf "user", bytesOf "alice")]⟩,
     ⟨bytesOf "ns", bytesOf "db", payloadOf [(bytesOf "pass", bytesOf "s3cr3t")]⟩]
    "failed to patch Kubernetes secret: forbidden" (by decide) (by decide)).1,
   by
    obtain ⟨sent₁, hpre, _, hpatch⟩ :=
      (PatchK8sSecrets_fail_fast (clusterRejecting (bytesOf "none")) ⟨⟨bytesOf "ns", []⟩, []⟩
        ⟨[(bytesOf "app", [(bytesOf "user", bytesOf "alice")]),
          (bytesOf "db", [(bytesOf "pass", bytesOf "s3cr3t")])], []⟩
        [(bytesOf "app", [(bytesOf "user", bytesOf "alice")])]
        (bytesOf "db", [(bytesOf "pass", bytesOf "s3cr3t")]) [] rfl).2 (by decide)
    have h1 : patchLoop (clusterRejecting (bytesOf "none")) (bytesOf "ns")
        [(bytesOf "app", [(bytesOf "user", bytesOf "alice")])] []
        = (.ok (), [⟨bytesOf "ns", bytesOf "app",
            payloadOf [(bytesOf "user", bytesOf "alice")]⟩]) := by decide
    have h2 := hpre.symm.trans h1
    rw [(Prod.mk.inj h2).2] at hpatch
    exact hpatch⟩

/-! ## Waiting for a file -/

/-- The function `VerifyFileExists` returns `nil` for a file that exists and is regular, and
the error of `os.Stat` for a path that does not exist. -/
theorem VerifyFileExists_regular_or_missing (e : Error) :
    VerifyFileExists ⟨some ⟨true⟩, none⟩ = .ok ()
    ∧ VerifyFileExists ⟨none, some ⟨true, e⟩⟩ = .err e := ⟨rfl, rfl⟩

/-- C5, evaluated at the failing inputs: for a path that exists and is a
directory (`os.Stat` returns its `FileInfo` and a `nil` error),
`VerifyFileExists` returns `nil`; for a lookup that fails with an error other
than "not exist" (`os.Stat` returns a `nil` `FileInfo`), it panics. -/
theorem VerifyFileExists_directory_and_other_error :
    VerifyFileExists ⟨some ⟨false⟩, none⟩ = .ok ()
    ∧ VerifyFileExists ⟨none, some ⟨false, "permission denied"⟩⟩
      = .panic "invalid memory address or nil pointer dereference" := ⟨rfl, rfl⟩

/-- A run of `Retry` whose operation fails at every call, from a back-off with
`c` retries counted and a limit `c + d + 1`: it makes `d + 1` more calls, each
in the world the one before left, and ends with the error of the last one. -/
theorem Retry_all_fail {σ : Type} (f : σ → GoResult Unit × σ)
    (hfail : ∀ w, ∃ e, (f w).1 = .err e) (d : Nat) (interval c : Nat)
    (world : σ) (delays : List Nat) (fuel : Nat) (hfuel : d + 1 ≤ fuel) :
    ∃ e delays', Retry (fun _ w => f w) fuel ⟨interval, ((c + d + 1 : Nat) : Int), c⟩ world delays
      = some ⟨.err e, (fun w => (f w).2)^[d + 1] world, delays'⟩ := by
  induction d generalizing c world delays fuel with
  | zero =>
    obtain ⟨fuel, rfl⟩ : ∃ g, fuel = g + 1 := ⟨fuel - 1, by omega⟩
    obtain ⟨e, he⟩ := hfail world
    rcases hfw : f world with ⟨r, w'⟩
    rw [hfw] at he
    simp only [] at he
    subst he
    refine ⟨e, delays, ?_⟩
    simp only [Retry, hfw, LimitedBackOff.NextBackOff, Function.iterate_succ,
      Function.iterate_zero, Function.comp_apply, id_eq]
    simp
  | succ d ih =>
    obtain ⟨fuel, rfl⟩ : ∃ g, fuel = g + 1 := ⟨fuel - 1, by omega⟩
    obtain ⟨e, he⟩ := hfail world
    rcases hfw : f world with ⟨r, w'⟩
    rw [hfw] at he
    simp only [] at he
    subst he
    have hnot : ¬ (((c + (d + 1) + 1 : Nat) : Int) ≤ (c : Int) + 1) := by omega
    obtain ⟨e', delays', h'⟩ := ih (c + 1) w' (delays ++ [interval * 2 ^ c]) fuel (by omega)
    refine ⟨e', delays', ?_⟩
    have hc : c + 1 + d + 1 = c + (d + 1) + 1 := by omega
    rw [hc] at h'
    have hstep : (fun w => (f w).2)^[d + 1 + 1] world = (fun w => (f w).2)^[d + 1] w' := by
      rw [Function.iterate_succ_apply, hfw]
    rw [hstep]
    simp only [Retry, hfw, LimitedBackOff.NextBackOff, if_neg hnot]
    exact h'

/-- With a verification function that fails at every call, `WaitForFile` with
the limit `n ≥ 1` leaves the world that `n` successive calls of the function
with `path` leave, and returns the retry-exhausted error. -/
theorem WaitForFile_all_fail {σ : Type} (stat : Bytes → σ → StatResult × σ)
    (recordedError : Int → Bytes → Error) (path : Bytes) (n : Nat) (hn : 1 ≤ n)
    (verify : Bytes → σ → GoResult Unit × σ) (hfail : ∀ p w, ∃ e, (verify p w).1 = .err e)
    (world : σ) (fuel : Nat) (hfuel : n ≤ fuel) :
    WaitForFile stat recordedError path (n : Int) (some verify) world fuel
      = some (.err (recordedError (n : Int) path), (fun w => (verify path w).2)^[n] world) := by
  obtain ⟨d, rfl⟩ : ∃ d, n = d + 1 := ⟨n - 1, by omega⟩
  obtain ⟨e, delays', h⟩ := Retry_all_fail (fun w => verify path w)
    (fun w => hfail path w) d Second 0 world [] fuel (by omega)
  rw [Nat.zero_add] at h
  simp only [WaitForFile, NewLimitedBackOff, h]

/-- The world after `k` calls of a recording verification function: the world
after `k` calls of the function it wraps, and `k` more records of the path. -/
theorem iterate_recordCalls {σ : Type} (verify : Bytes → σ → GoResult Unit × σ)
    (path : Bytes) (k : Nat) (world : σ) (calls : List Bytes) :
    (fun w => (recordCalls verify path w).2)^[k] (world, calls)
      = ((fun w => (verify path w).2)^[k] world, calls ++ List.replicate k path) := by
  induction k generalizing world calls with
  | zero => simp
  | succ k ih =>
    have hstep : (recordCalls verify path (world, calls)).2
        = ((verify path world).2, calls ++ [path]) := rfl
    rw [Function.iterate_succ_apply, Function.iterate_succ_apply, hstep, ih]
    simp [List.replicate_succ]

/-- C7: for every retry limit `n ≥ 1` and every path, `WaitForFile` with a
verification function that returns an error at every call returns the
retry-exhausted error `RecordedError(CAKC033, n, path)` after calling the
verification function exactly `n` times, as soon as the loop is given room for
`n` calls. The calls are observed through what they do: the world is left as
`n` successive calls of the function leave it, and a function that records its
calls has recorded exactly `n` calls, each with `path`. With `n = 3` these are
exactly 3 calls. -/
theorem WaitForFile_exhausted {σ : Type} (stat : Bytes → σ → StatResult × σ)
    (statRecording : Bytes → σ × List Bytes → StatResult × (σ × List Bytes))
    (recordedError : Int → Bytes → Error) (path : Bytes) (n : Nat) (hn : 1 ≤ n)
    (verify : Bytes → σ → GoResult Unit × σ) (hfail : ∀ p w, ∃ e, (verify p w).1 = .err e)
    (world : σ) (fuel : Nat) (hfuel : n ≤ fuel) :
    WaitForFile stat recordedError path (n : Int) (some verify) world fuel
      = some (.err (recordedError (n : Int) path), (fun w => (verify path w).2)^[n] world)
    ∧ WaitForFile statRecording recordedError path (n : Int) (some (recordCalls verify))
        (world, []) fuel
      = some (.err (recordedError (n : Int) path),
          ((fun w => (verify path w).2)^[n] world, List.replicate n path)) := by
  refine ⟨WaitForFile_all_fail stat recordedError path n hn verify hfail world fuel hfuel, ?_⟩
  rw [WaitForFile_all_fail statRecording recordedError path n hn (recordCalls verify)
    (fun p w => hfail p w.1) (world, []) fuel hfuel, iterate_recordCalls]
  simp

theorem WaitForFile_exhausted_witness :
    WaitForFile (fun _ w => (⟨none, none⟩, w)) (fun _ _ => "CAKC033")
        (bytesOf "/run/conjur/token") 3 (some failAndCount) 0 3
      = some (.err "CAKC033", 3)
    ∧ WaitForFile (fun _ w => (⟨none, none⟩, w)) (fun _ _ => "CAKC033")
        (bytesOf "/run/conjur/token") 3 (some (recordCalls failAndCount)) (0, []) 3
      = some (.err "CAKC033",
          (3, [bytesOf "/run/conjur/token", bytesOf "/run/conjur/token",
            bytesOf "/run/conjur/token"])) :=
  WaitForFile_exhausted (fun _ w => (⟨none, none⟩, w)) (fun _ w => (⟨none, none⟩, w))
    (fun _ _ => "CAKC033") (bytesOf "/run/conjur/token") 3 (by decide) failAndCount
    (fun _ _ => ⟨_, rfl⟩) 0 3 (by decide)

/-! ## Authentication -/

/-- C4: `Authenticate` calls `AccessToken.Write` if and only if both the metadata
request and the authentication request succeed, and then once, with the bytes of
the authentication response body; when either request fails, `Authenticate`
returns the error of that request, makes no `Write` call and leaves the store
as it was. -/
theorem Authenticate_writes_iff_both_succeed {Client Request Response σ : Type}
    (net : Transport Client Request Response) (auth : Authenticator σ) (store : σ) :
    ((Authenticate net auth store).writes ≠ [] ↔
      ∃ sessionToken body, sendMetadataRequest net auth = .ok sessionToken
        ∧ sendAuthenticationRequest net auth sessionToken = .ok body)
    ∧ (∀ sessionToken body, sendMetadataRequest net auth = .ok sessionToken →
        sendAuthenticationRequest net auth sessionToken = .ok body →
        (Authenticate net auth store).writes = [body]
        ∧ (Authenticate net auth store).err = (auth.AccessToken.Write body store).1
        ∧ (Authenticate net auth store).store = (auth.AccessToken.Write body store).2)
    ∧ (∀ e, sendMetadataRequest net auth = .error e →
        (Authenticate net auth store).err = some e
        ∧ (Authenticate net auth store).writes = []
        ∧ (Authenticate net auth store).store = store)
    ∧ (∀ sessionToken e, sendMetadataRequest net auth = .ok sessionToken →
        sendAuthenticationRequest net auth sessionToken = .error e →
        (Authenticate net auth store).err = some e
        ∧ (Authenticate net auth store).writes = []
        ∧ (Authenticate net auth store).store = store) := by
  have hboth : ∀ sessionToken body, sendMetadataRequest net auth = .ok sessionToken →
      sendAuthenticationRequest net auth sessionToken = .ok body →
      (Authenticate net auth store).writes = [body]
      ∧ (Authenticate net auth store).err = (auth.AccessToken.Write body store).1
      ∧ (Authenticate net auth store).store = (auth.AccessToken.Write body store).2 := by
    intro sessionToken body hm ha
    simp only [Authenticate, hm, ha]
    rcases hw : auth.AccessToken.Write body store with ⟨_ | e, store'⟩ <;> simp
  refine ⟨⟨?_, ?_⟩, hboth, ?_, ?_⟩
  · intro hw
    cases hm : sendMetadataRequest net auth with
    | error e => simp [Authenticate, hm] at hw
    | ok sessionToken =>
      cases ha : sendAuthenticationRequest net auth sessionToken with
      | error e => simp [Authenticate, hm, ha] at hw
      | ok body => exact ⟨sessionToken, body, rfl, ha⟩
  · rintro ⟨sessionToken, body, hm, ha⟩
    rw [(hboth sessionToken body hm ha).1]
    simp
  · intro e hm
    simp [Authenticate, hm]
  · intro sessionToken e hm ha
    simp [Authenticate, hm, ha]

theorem Authenticate_writes_iff_both_succeed_witness :
    ((Authenticate (stubTransport 401) stubAuthenticator (some (bytesOf "old"))).err
        = some "unexpected status"
      ∧ (Authenticate (stubTransport 401) stubAuthenticator (some (bytesOf "old"))).writes = []
      ∧ (Authenticate (stubTransport 401) stubAuthenticator (some (bytesOf "old"))).store
        = some (bytesOf "old"))
    ∧ (Authenticate (stubTransport 200) stubAuthenticator (some (bytesOf "old"))).writes
      = [bytesOf "session"] :=
  ⟨(Authenticate_writes_iff_both_succeed (stubTransport 401) stubAuthenticator
      (some (bytesOf "old"))).2.2.2 (bytesOf "idtoken") "unexpected status" rfl rfl,
   ((Authenticate_writes_iff_both_succeed (stubTransport 200) stubAuthenticator
      (some (bytesOf "old"))).2.1 (bytesOf "idtoken") (bytesOf "session") rfl rfl).1⟩

/-! ## Splitting a well-formed conjur-map -/

theorem bytesOf_newline : bytesOf "\n" = [10] := by decide

theorem bytesOf_delimiter : bytesOf ": " = [58, 32] := by decide

theorem splitGo_newline_cons (c : Nat) (cs acc : Bytes) :
    splitGo [10] 0 (c :: cs) acc
      = if c = 10 then acc.reverse :: splitGo [10] 0 cs [] else splitGo [10] 0 cs (c :: acc) := by
  by_cases h : c = 10
  · subst h
    simp [splitGo, List.isPrefixOf]
  · have h' : ¬ (10 = c) := fun e => h e.symm
    simp [splitGo, List.isPrefixOf, h, h']

/-- Scanning over a piece without newline only accumulates it. -/
theorem splitGo_newline_append (l rest acc : Bytes) (hl : 10 ∉ l) :
    splitGo [10] 0 (l ++ rest) acc = splitGo [10] 0 rest (l.reverse ++ acc) := by
  induction l generalizing acc with
  | nil => rfl
  | cons c l ih =>
    have hc : c ≠ 10 := fun e => hl (by simp [e])
    have hl' : 10 ∉ l := fun h => hl (List.mem_cons_of_mem _ h)
    rw [List.cons_append, splitGo_newline_cons, if_neg hc, ih _ hl']
    simp

theorem intercalate_cons_cons (sep a b : Bytes) (t : List Bytes) :
    sep.intercalate (a :: b :: t) = a ++ sep ++ sep.intercalate (b :: t) := by
  simp [List.intercalate, List.intersperse]

theorem splitGo_newline_intercalate (l : Bytes) (ls : List Bytes) (acc : Bytes)
    (h : ∀ x ∈ l :: ls, 10 ∉ x) :
    splitGo [10] 0 (List.intercalate [10] (l :: ls)) acc = (acc.reverse ++ l) :: ls := by
  induction ls generalizing l acc with
  | nil =>
    have hl : 10 ∉ l := h l (by simp)
    have := splitGo_newline_append l [] acc hl
    simp only [List.append_nil] at this
    have hi : List.intercalate [10] [l] = l := by simp [List.intercalate, List.intersperse]
    rw [hi, this]
    simp [splitGo]
  | cons b t ih =>
    have hl : 10 ∉ l := h l (by simp)
    rw [intercalate_cons_cons, List.append_assoc, splitGo_newline_append _ _ _ hl]
    rw [List.singleton_append, splitGo_newline_cons, if_pos rfl,
      ih b [] (fun x hx => h x (List.mem_cons_of_mem _ hx))]
    simp

/-- Splitting at newlines gives back the lines that were joined by newlines,
when there is at least one line and no line holds a newline. -/
theorem Split_newline_intercalate (ls : List Bytes) (hne : ls ≠ [])
    (h : ∀ x ∈ ls, 10 ∉ x) :
    Split ((bytesOf "\n").intercalate ls) (bytesOf "\n") = ls := by
  obtain ⟨l, t, rfl⟩ := List.exists_cons_of_ne_nil hne
  rw [bytesOf_newline]
  simp only [Split, List.cons_ne_nil, if_false]
  rw [splitGo_newline_intercalate l t [] h]
  simp

theorem splitGo_delimiter_cons (c : Nat) (cs acc : Bytes) :
    splitGo [58, 32] 0 (c :: cs) acc
      = if c = 58 ∧ cs.head? = some 32 then acc.reverse :: splitGo [58, 32] 1 cs []
        else splitGo [58, 32] 0 cs (c :: acc) := by
  cases cs with
  | nil => simp [splitGo, List.isPrefixOf]
  | cons d cs =>
    by_cases h1 : c = 58 <;> by_cases h2 : d = 32
    · subst h1; subst h2; simp [splitGo, List.isPrefixOf]
    · subst h1
      have : ¬ (32 = d) := fun e => h2 e.symm
      simp [splitGo, List.isPrefixOf, h2, this]
    · subst h2
      have : ¬ (58 = c) := fun e => h1 e.symm
      simp [splitGo, List.isPrefixOf, h1, this]
    · have : ¬ (58 = c) := fun e => h1 e.symm
      simp [splitGo, List.isPrefixOf, h1, this]

/-- Scanning over a piece without the delimiter, when no delimiter straddles
its end, only accumulates it. -/
theorem splitGo_delimiter_append (l rest acc : Bytes) (hl : ¬ [58, 32] <:+: l)
    (hrest : rest.head? ≠ some 32) :
    splitGo [58, 32] 0 (l ++ rest) acc = splitGo [58, 32] 0 rest (l.reverse ++ acc) := by
  induction l generalizing acc with
  | nil => rfl
  | cons c l ih =>
    have hl' : ¬ [58, 32] <:+: l := fun h => hl (List.IsInfix.trans h (List.suffix_cons c l).isInfix)
    have hno : ¬ (c = 58 ∧ (l ++ rest).head? = some 32) := by
      rintro ⟨hc, hh⟩
      cases l with
      | nil => exact hrest (by simpa using hh)
      | cons d l =>
        simp only [List.cons_append, List.head?_cons, Option.some.injEq] at hh
        apply hl
        subst hc; subst hh
        exact (List.prefix_iff_eq_append.mpr (by simp)).isInfix
    rw [List.cons_append, splitGo_delimiter_cons, if_neg hno, ih _ hl']
    simp

/-- A line `key: variableId` whose key and variable id hold no delimiter splits
into exactly the key and the variable id. -/
theorem Split_delimiter_line (key var : Bytes) (hk : ¬ bytesOf ": " <:+: key)
    (hv : ¬ bytesOf ": " <:+: var) :
    Split (key ++ bytesOf ": " ++ var) (bytesOf ": ") = [key, var] := by
  rw [bytesOf_delimiter] at hk hv ⊢
  simp only [Split, List.cons_ne_nil, if_false]
  rw [List.append_assoc, splitGo_delimiter_append key _ [] hk (by simp)]
  have hv' := splitGo_delimiter_append var [] [] hv (by simp)
  simp only [List.append_nil] at hv'
  simp only [List.cons_append, List.nil_append, splitGo_delimiter_cons, List.head?_cons,
    and_self, if_true, List.append_nil, List.reverse_reverse]
  simp only [splitGo, hv']
  simp

/-- A line without the delimiter is not split: indexing piece 1 is out of range. -/
theorem Split_no_delimiter (entry : Bytes) (h : ¬ bytesOf ": " <:+: entry) :
    Split entry (bytesOf ": ") = [entry] := by
  rw [bytesOf_delimiter] at h ⊢
  simp only [Split, List.cons_ne_nil, if_false]
  have := splitGo_delimiter_append entry [] [] h (by simp)
  simp only [List.append_nil] at this
  rw [this]
  simp [splitGo]

/-! ## Go maps -/

theorem GoMap.lookup_filter_ne {β : Type} (m : GoMap β) (k k' : Bytes) :
    GoMap.lookup (m.filter (fun e => !decide (e.1 = k))) k'
      = if k' = k then none else GoMap.lookup m k' := by
  induction m with
  | nil => simp [GoMap.lookup]
  | cons e m ih =>
    obtain ⟨a, b⟩ := e
    by_cases ha : a = k
    · subst ha
      by_cases hk : k' = a
      · subst hk
        simp [List.filter, ih]
      · have : ¬ a = k' := fun e => hk e.symm
        simp [List.filter, ih, GoMap.lookup, hk, this]
    · by_cases hk : k' = k
      · subst hk
        simp [List.filter, ha, GoMap.lookup, ih]
      · simp [List.filter, ha, GoMap.lookup, ih, hk]

theorem GoMap.lookup_assign {β : Type} (m : GoMap β) (k k' : Bytes) (v : β) :
    GoMap.lookup (GoMap.assign m k v) k' = if k = k' then some v else GoMap.lookup m k' := by
  by_cases h : k = k'
  · simp [GoMap.assign, GoMap.lookup, h]
  · have h' : ¬ k' = k := fun e => h e.symm
    simp [GoMap.assign, GoMap.lookup, h, GoMap.lookup_filter_ne, h']

theorem GoMap.keys_nodup_assign {β : Type} (m : GoMap β) (k : Bytes) (v : β)
    (h : (m.map (fun e => e.1)).Nodup) :
    ((GoMap.assign m k v).map (fun e => e.1)).Nodup := by
  simp only [GoMap.assign, List.map_cons, List.nodup_cons]
  constructor
  · intro hk
    obtain ⟨e, he, hek⟩ := List.mem_map.mp hk
    have := (List.mem_filter.mp he).2
    simp at this
    exact this hek
  · exact (h.sublist ((List.filter_sublist m).map _))

/-- The map after the assignments `m[e.1] = e.2` for the entries `e` of a list,
from first to last. -/
theorem GoMap.foldl_assign_nodup {β : Type} (l : List (Bytes × β)) (m : GoMap β)
    (h : (m.map (fun e => e.1)).Nodup) :
    ((l.foldl (fun m e => GoMap.assign m e.1 e.2) m).map (fun e => e.1)).Nodup := by
  induction l generalizing m with
  | nil => exact h
  | cons e l ih => exact ih _ (GoMap.keys_nodup_assign m e.1 e.2 h)

theorem GoMap.lookup_foldl_assign_not_mem {β : Type} (l : List (Bytes × β)) (m : GoMap β)
    (k : Bytes) (h : k ∉ l.map (fun e => e.1)) :
    GoMap.lookup (l.foldl (fun m e => GoMap.assign m e.1 e.2) m) k = GoMap.lookup m k := by
  induction l generalizing m with
  | nil => rfl
  | cons e l ih =>
    simp only [List.map_cons, List.mem_cons, not_or] at h
    rw [List.foldl_cons, ih _ h.2, GoMap.lookup_assign, if_neg (fun e' => h.1 e'.symm)]

/-- The last assignment to a key decides its value. -/
theorem GoMap.lookup_foldl_assign_last {β : Type} (pre post : List (Bytes × β)) (m : GoMap β)
    (k : Bytes) (v : β) (h : k ∉ post.map (fun e => e.1)) :
    GoMap.lookup ((pre ++ (k, v) :: post).foldl (fun m e => GoMap.assign m e.1 e.2) m) k
      = some v := by
  rw [List.foldl_append, List.foldl_cons, GoMap.lookup_foldl_assign_not_mem _ _ _ h,
    GoMap.lookup_assign, if_pos rfl]

/-- A value found in the map after a list of assignments to an empty map was
assigned by one of them. -/
theorem GoMap.lookup_foldl_assign_mem {β : Type} (l : List (Bytes × β)) (m : GoMap β)
    (k : Bytes) (v : β)
    (h : GoMap.lookup (l.foldl (fun m e => GoMap.assign m e.1 e.2) m) k = some v) :
    (k, v) ∈ l ∨ GoMap.lookup m k = some v := by
  induction l generalizing m with
  | nil => exact Or.inr h
  | cons e l ih =>
    rcases ih _ h with hl | hm
    · exact Or.inl (List.mem_cons_of_mem _ hl)
    · rw [GoMap.lookup_assign] at hm
      by_cases hk : e.1 = k
      · rw [if_pos hk] at hm
        left
        have : e = (k, v) := Prod.ext hk (Option.some.inj hm)
        rw [this]
        exact List.mem_cons_self _ _
      · rw [if_neg hk] at hm
        exact Or.inr hm

/-- In a map with one entry per key, a key that is found has exactly one entry. -/
theorem GoMap.one_entry_of_lookup {β : Type} (m : GoMap β) (k : Bytes) (v : β)
    (hnd : (m.map (fun e => e.1)).Nodup) (h : GoMap.lookup m k = some v) :
    (m.filter (fun e => decide (e.1 = k))).length = 1 := by
  induction m with
  | nil => simp [GoMap.lookup] at h
  | cons e m ih =>
    obtain ⟨a, b⟩ := e
    simp only [List.map_cons, List.nodup_cons] at hnd
    by_cases ha : a = k
    · subst ha
      have hnone : m.filter (fun e => decide (e.1 = a)) = [] := by
        rw [List.filter_eq_nil_iff]
        intro e he hea
        simp at hea
        exact hnd.1 (List.mem_map.mpr ⟨e, he, hea⟩)
      simp [List.filter, hnone]
    · simp only [GoMap.lookup, if_neg ha] at h
      simp [List.filter, ha, ih hnd.2 h]

/-! ## Retrieving the secrets of a well-formed cycle -/

theorem GoMap.lookup_eq_none_of_not_mem {β : Type} (m : GoMap β) (k : Bytes)
    (h : k ∉ m.map (fun e => e.1)) : GoMap.lookup m k = none := by
  induction m with
  | nil => rfl
  | cons e m ih =>
    obtain ⟨a, b⟩ := e
    simp only [List.map_cons, List.mem_cons, not_or] at h
    have hak : ¬ a = k := fun e' => h.1 e'.symm
    simp only [GoMap.lookup, if_neg hak]
    exact ih h.2

theorem GoMap.lookup_assignAll_of_mem {β : Type} (l : List (Bytes × β)) (m : GoMap β)
    (k : Bytes) (v : β) (hnd : (l.map (fun e => e.1)).Nodup) (h : (k, v) ∈ l) :
    GoMap.lookup (GoMap.assignAll m l) k = some v := by
  obtain ⟨pre, post, rfl⟩ := List.append_of_mem h
  apply GoMap.lookup_foldl_assign_last
  rw [List.map_append, List.map_cons] at hnd
  exact (List.nodup_cons.mp (List.Nodup.of_append_right hnd)).1

theorem GoMap.lookup_assignAll_of_forall {β : Type} (l : List (Bytes × β)) (m : GoMap β)
    (k : Bytes) (v : β) (hall : ∀ e ∈ l, e.1 = k → e.2 = v)
    (h : k ∈ l.map (fun e => e.1) ∨ GoMap.lookup m k = some v) :
    GoMap.lookup (GoMap.assignAll m l) k = some v := by
  induction l generalizing m with
  | nil =>
    rcases h with h | h
    · simp at h
    · exact h
  | cons e l ih =>
    unfold GoMap.assignAll
    rw [List.foldl_cons]
    apply ih _ (fun e' he' => hall e' (List.mem_cons_of_mem _ he'))
    by_cases hk : e.1 = k
    · right
      rw [GoMap.lookup_assign, if_pos hk, hall e (List.mem_cons_self _ _) hk]
    · rcases h with h | h
      · simp only [List.map_cons, List.mem_cons] at h
        rcases h with h | h
        · exact absurd h.symm hk
        · exact Or.inl h
      · right
        rw [GoMap.lookup_assign, if_neg hk]
        exact h

theorem not_mem_manifestLine (kv : Bytes × Bytes) (h : WellFormedLine kv) :
    10 ∉ manifestLine kv := by
  obtain ⟨_, _, h1, h2⟩ := h
  simp only [manifestLine, bytesOf_delimiter, List.mem_append, List.mem_cons, not_or]
  refine ⟨⟨h1, ?_⟩, h2⟩
  simp

theorem Split_conjurMapOf (lines : List (Bytes × Bytes)) (hne : lines ≠ [])
    (hwf : ∀ kv ∈ lines, WellFormedLine kv) :
    Split (conjurMapOf lines) (bytesOf "\n") = lines.map manifestLine := by
  apply Split_newline_intercalate
  · simpa using hne
  · intro x hx
    obtain ⟨kv, hkv, rfl⟩ := List.mem_map.mp hx
    exact not_mem_manifestLine kv (hwf kv hkv)

theorem parseConjurMapEntries_wellFormed (secretName : Bytes) (lines : List (Bytes × Bytes))
    (hwf : ∀ kv ∈ lines, WellFormedLine kv) (newDataEntriesMap pathMap : GoMap Bytes) :
    parseConjurMapEntries secretName (lines.map manifestLine) newDataEntriesMap pathMap
      = .ok (GoMap.assignAll newDataEntriesMap lines,
          GoMap.assignAll pathMap
            (lines.map (fun kv => pathAssignment (secretName, kv.1, kv.2)))) := by
  induction lines generalizing newDataEntriesMap pathMap with
  | nil => rfl
  | cons kv lines ih =>
    have hkv := hwf kv (List.mem_cons_self _ _)
    have hsplit : Split (manifestLine kv) (bytesOf ": ") = [kv.1, kv.2] :=
      Split_delimiter_line kv.1 kv.2 hkv.1 hkv.2.1
    simp only [List.map_cons, parseConjurMapEntries, hsplit, List.getElem?_cons_zero,
      List.getElem?_cons_succ]
    rw [ih (fun kv' h => hwf kv' (List.mem_cons_of_mem _ h))]
    rfl

theorem parseSecretData_no_manifest (secretName : Bytes) (data : List (Bytes × Bytes))
    (h : GoMap.lookup data CONJUR_MAP_KEY = none) (newDataEntriesMap pathMap : GoMap Bytes) :
    parseSecretData secretName data newDataEntriesMap pathMap
      = .ok (newDataEntriesMap, pathMap) := by
  induction data with
  | nil => rfl
  | cons e data ih =>
    obtain ⟨key, value⟩ := e
    by_cases hk : key = CONJUR_MAP_KEY
    · simp [GoMap.lookup, hk] at h
    · simp only [GoMap.lookup, if_neg hk] at h
      simp only [parseSecretData, if_neg hk]
      exact ih h

theorem parseSecretData_manifest (secretName : Bytes) (data : List (Bytes × Bytes))
    (lines : List (Bytes × Bytes)) (hne : lines ≠ [])
    (hwf : ∀ kv ∈ lines, WellFormedLine kv)
    (hnd : (data.map (fun e => e.1)).Nodup)
    (h : GoMap.lookup data CONJUR_MAP_KEY = some (conjurMapOf lines))
    (newDataEntriesMap pathMap : GoMap Bytes) :
    parseSecretData secretName data newDataEntriesMap pathMap
      = .ok (GoMap.assignAll newDataEntriesMap lines,
          GoMap.assignAll pathMap
            (lines.map (fun kv => pathAssignment (secretName, kv.1, kv.2)))) := by
  induction data with
  | nil => simp [GoMap.lookup] at h
  | cons e data ih =>
    obtain ⟨key, value⟩ := e
    simp only [List.map_cons, List.nodup_cons] at hnd
    by_cases hk : key = CONJUR_MAP_KEY
    · simp only [GoMap.lookup, if_pos hk, Option.some.injEq] at h
      subst h
      rw [hk] at hnd
      simp only [parseSecretData, if_pos hk, Split_conjurMapOf lines hne hwf,
        parseConjurMapEntries_wellFormed secretName lines hwf]
      exact parseSecretData_no_manifest secretName data
        (GoMap.lookup_eq_none_of_not_mem data _ hnd.1) _ _
    · simp only [GoMap.lookup, if_neg hk] at h
      simp only [parseSecretData, if_neg hk]
      exact ih hnd.2 h

theorem assignAll_length_pos {β : Type} (l : List (Bytes × β)) (m : GoMap β)
    (h : l ≠ [] ∨ m ≠ []) : (GoMap.assignAll m l).length > 0 := by
  induction l generalizing m with
  | nil =>
    rcases h with h | h
    · exact absurd rfl h
    · exact List.length_pos.mpr h
  | cons e l ih =>
    unfold GoMap.assignAll
    rw [List.foldl_cons]
    exact ih _ (Or.inr (by simp [GoMap.assign]))

/-- The loop over the required secrets of a cycle whose secrets carry
well-formed manifests succeeds, with the maps that the assignments of the
cycle, taken in processing order, produce. -/
theorem retrieveLoop_wellFormed (kubeClient : KubeClient) (podNamespace : Bytes)
    (required : List Bytes) (manifest : Bytes → List (Bytes × Bytes))
    (h : CarriesManifests kubeClient podNamespace required manifest)
    (k8sSecrets : GoMap (GoMap Bytes)) (pathMap : GoMap Bytes) :
    retrieveLoop kubeClient podNamespace required k8sSecrets pathMap
      = .ok ⟨GoMap.assignAll k8sSecrets (secretAssignments required manifest),
          GoMap.assignAll pathMap ((cycleEntries required manifest).map pathAssignment)⟩ := by
  induction required generalizing k8sSecrets pathMap with
  | nil => rfl
  | cons secretName rest ih =>
    obtain ⟨k8sSecret, hget, hnd, hwf, hcase⟩ := h secretName (List.mem_cons_self _ _)
    have hrest : CarriesManifests kubeClient podNamespace rest manifest :=
      fun s hs => h s (List.mem_cons_of_mem _ hs)
    simp only [retrieveLoop, retrieveK8sSecret, hget]
    rcases hcase with ⟨hnil, hlook⟩ | ⟨hne, hlook⟩
    · rw [parseSecretData_no_manifest secretName k8sSecret.Data hlook]
      simp only [List.length_nil, gt_iff_lt, lt_self_iff_false, if_false]
      rw [ih hrest]
      simp [secretAssignments, cycleEntries, hnil, List.filter]
    · rw [parseSecretData_manifest secretName k8sSecret.Data _ hne hwf hnd hlook]
      simp only []
      rw [if_pos (assignAll_length_pos _ _ (Or.inl hne)), ih hrest]
      have hemp : (manifest secretName).isEmpty = false := by
        cases hm : manifest secretName with
        | nil => exact absurd hm hne
        | cons _ _ => rfl
      simp [secretAssignments, cycleEntries, List.filter, hemp, GoMap.assignAll,
        List.foldl_append, Function.comp_def]

/-! ## `RetrieveK8sSecrets` -/

theorem RetrieveK8sSecrets_eq (kubeClient : KubeClient) (secrets : K8sSecretsHandler)
    (manifest : Bytes → List (Bytes × Bytes))
    (h : CarriesManifests kubeClient secrets.Config.PodNamespace
      secrets.Config.RequiredK8sSecrets manifest) :
    RetrieveK8sSecrets kubeClient secrets
      = .ok ⟨GoMap.assignAll [] (secretAssignments secrets.Config.RequiredK8sSecrets manifest),
          GoMap.assignAll []
            ((cycleEntries secrets.Config.RequiredK8sSecrets manifest).map pathAssignment)⟩ :=
  retrieveLoop_wellFormed kubeClient _ _ manifest h [] []

theorem mem_cycleEntries (required : List Bytes) (manifest : Bytes → List (Bytes × Bytes))
    (secretName key var : Bytes) (hs : secretName ∈ required)
    (hkv : (key, var) ∈ manifest secretName) :
    (secretName, key, var) ∈ cycleEntries required manifest := by
  simp only [cycleEntries, List.mem_flatMap, List.mem_map]
  exact ⟨secretName, hs, (key, var), hkv, rfl⟩

theorem exampleManifest_carried :
    CarriesManifests
      (clusterWith (bytesOf "secretX") [(CONJUR_MAP_KEY, bytesOf "user: var1\npass: var2")])
      (bytesOf "ns") [bytesOf "secretX"] exampleManifest := by
  intro s hs
  simp only [List.mem_singleton] at hs
  subst hs
  refine ⟨⟨[(CONJUR_MAP_KEY, bytesOf "user: var1\npass: var2")]⟩, by rfl, by decide, ?_,
    Or.inr ⟨by decide, by decide⟩⟩
  intro kv hkv
  have : kv = (bytesOf "user", bytesOf "var1") ∨ kv = (bytesOf "pass", bytesOf "var2") := by
    simpa [exampleManifest] using hkv
  rcases this with h | h <;> subst h <;> (unfold WellFormedLine; decide)

theorem duplicateManifest_carried :
    CarriesManifests
      (clusterWith (bytesOf "secretX") [(CONJUR_MAP_KEY, bytesOf "user: var1\nlogin: var1")])
      (bytesOf "ns") [bytesOf "secretX"] duplicateManifest := by
  intro s hs
  simp only [List.mem_singleton] at hs
  subst hs
  refine ⟨⟨[(CONJUR_MAP_KEY, bytesOf "user: var1\nlogin: var1")]⟩, by rfl, by decide, ?_,
    Or.inr ⟨by decide, by decide⟩⟩
  intro kv hkv
  have : kv = (bytesOf "user", bytesOf "var1") ∨ kv = (bytesOf "login", bytesOf "var1") := by
    simpa [duplicateManifest] using hkv
  rcases this with h | h <;> subst h <;> (unfold WellFormedLine; decide)

/-- C2, evaluated at the failing inputs: when the conjur-map of the required
secret `secretX` is the line `userinvalid`, or is empty, or ends with an empty
line, `RetrieveK8sSecrets` panics (index 1 of the one-piece split is out of
range) instead of returning an error. -/
theorem RetrieveK8sSecrets_malformed_entry_panics :
    RetrieveK8sSecrets
        (clusterWith (bytesOf "secretX") [(CONJUR_MAP_KEY, bytesOf "userinvalid")])
        ⟨⟨bytesOf "ns", [bytesOf "secretX"]⟩, []⟩
      = .panic "index out of range [1] with length 1"
    ∧ RetrieveK8sSecrets (clusterWith (bytesOf "secretX") [(CONJUR_MAP_KEY, [])])
        ⟨⟨bytesOf "ns", [bytesOf "secretX"]⟩, []⟩
      = .panic "index out of range [1] with length 1"
    ∧ RetrieveK8sSecrets
        (clusterWith (bytesOf "secretX") [(CONJUR_MAP_KEY, bytesOf "user: var1\n")])
        ⟨⟨bytesOf "ns", [bytesOf "secretX"]⟩, []⟩
      = .panic "index out of range [1] with length 1" := by
  refine ⟨by decide, by decide, by decide⟩

/-- An entry without the delimiter makes the entry loop panic, whatever the
secret, the entries after it and the maps built so far. -/
theorem parseConjurMapEntries_no_delimiter (secretName entry : Bytes) (rest : List Bytes)
    (newDataEntriesMap pathMap : GoMap Bytes) (h : ¬ bytesOf ": " <:+: entry) :
    parseConjurMapEntries secretName (entry :: rest) newDataEntriesMap pathMap
      = .panic "index out of range [1] with length 1" := by
  simp [parseConjurMapEntries, Split_no_delimiter entry h]

/-- C3: in a cycle whose required secrets are all retrieved and carry
conjur-maps of newline-separated lines `key: variableId` with exactly one
delimiter each, with the keys of each secret pairwise distinct and the variable
ids pairwise distinct across the cycle, `RetrieveK8sSecrets` succeeds, and for
every required secret `S` and every line of it, `K8sSecrets[S][key]` is the
variable id and `PathMap[variableId]` is `S:key`; `K8sSecrets[S]` has no other
entries, and `PathMap` has no entries but those of the lines of the cycle. -/
theorem RetrieveK8sSecrets_wellFormed (kubeClient : KubeClient) (secrets : K8sSecretsHandler)
    (manifest : Bytes → List (Bytes × Bytes))
    (hcarry : CarriesManifests kubeClient secrets.Config.PodNamespace
      secrets.Config.RequiredK8sSecrets manifest)
    (hkeys : ∀ secretName ∈ secrets.Config.RequiredK8sSecrets,
      ((manifest secretName).map (fun kv => kv.1)).Nodup)
    (hvars : ((cycleEntries secrets.Config.RequiredK8sSecrets manifest).map
      (fun e => e.2.2)).Nodup) :
    ∃ r, RetrieveK8sSecrets kubeClient secrets = .ok r
      ∧ (∀ secretName ∈ secrets.Config.RequiredK8sSecrets,
        (∀ key var, (key, var) ∈ manifest secretName →
          (GoMap.lookup r.K8sSecrets secretName).bind (fun m => GoMap.lookup m key) = some var
          ∧ GoMap.lookup r.PathMap var = some (pathOf secretName key))
        ∧ (∀ key var,
          (GoMap.lookup r.K8sSecrets secretName).bind (fun m => GoMap.lookup m key) = some var →
          (key, var) ∈ manifest secretName))
      ∧ (∀ var place, GoMap.lookup r.PathMap var = some place →
        ∃ e ∈ cycleEntries secrets.Config.RequiredK8sSecrets manifest,
          e.2.2 = var ∧ place = pathOf e.1 e.2.1) := by
  refine ⟨_, RetrieveK8sSecrets_eq kubeClient secrets manifest hcarry, ?_, ?_⟩
  swap
  · intro var place hfound
    rcases GoMap.lookup_foldl_assign_mem _ _ _ _ hfound with hmem | hinit
    · obtain ⟨e, he, hee⟩ := List.mem_map.mp hmem
      simp only [pathAssignment, Prod.mk.injEq] at hee
      exact ⟨e, he, hee.1, hee.2.symm⟩
    · simp [GoMap.lookup] at hinit
  intro secretName hs
  simp only []
  refine ⟨?_, ?_⟩
  · intro key var hkv
    have hne : manifest secretName ≠ [] := List.ne_nil_of_mem hkv
    have hemp : (manifest secretName).isEmpty = false := by
      cases hm : manifest secretName with
      | nil => exact absurd hm hne
      | cons _ _ => rfl
    have hK : GoMap.lookup
        (GoMap.assignAll [] (secretAssignments secrets.Config.RequiredK8sSecrets manifest))
        secretName = some (GoMap.assignAll [] (manifest secretName)) := by
      apply GoMap.lookup_assignAll_of_forall
      · intro e he hek
        obtain ⟨s, _, rfl⟩ := List.mem_map.mp he
        simp only [] at hek
        rw [hek]
      · left
        simp only [secretAssignments, List.map_map, List.mem_map, List.mem_filter]
        exact ⟨secretName, ⟨hs, by simp [hemp]⟩, rfl⟩
    constructor
    · rw [hK]
      exact GoMap.lookup_assignAll_of_mem _ _ _ _ (hkeys secretName hs) hkv
    · apply GoMap.lookup_assignAll_of_mem _ _ var (pathOf secretName key)
      · simpa [List.map_map, pathAssignment, Function.comp_def] using hvars
      · exact List.mem_map.mpr ⟨(secretName, key, var),
          mem_cycleEntries _ _ _ _ _ hs hkv, rfl⟩
  · intro key var hfound
    cases hK : GoMap.lookup
        (GoMap.assignAll [] (secretAssignments secrets.Config.RequiredK8sSecrets manifest))
        secretName with
    | none => simp [hK] at hfound
    | some m =>
      rw [hK] at hfound
      simp only [Option.bind] at hfound
      rcases GoMap.lookup_foldl_assign_mem _ _ _ _ hK with hmem | hinit
      · obtain ⟨s, _, hsm⟩ := List.mem_map.mp hmem
        obtain ⟨rfl, rfl⟩ := Prod.mk.inj hsm
        rcases GoMap.lookup_foldl_assign_mem _ _ _ _ hfound with hin | hin
        · exact hin
        · simp [GoMap.lookup] at hin
      · simp [GoMap.lookup] at hinit

theorem RetrieveK8sSecrets_wellFormed_witness :
    RetrieveK8sSecrets
        (clusterWith (bytesOf "secretX") [(CONJUR_MAP_KEY, bytesOf "user: var1\npass: var2")])
        ⟨⟨bytesOf "ns", [bytesOf "secretX"]⟩, []⟩
      = .ok ⟨[(bytesOf "secretX",
              [(bytesOf "pass", bytesOf "var2"), (bytesOf "user", bytesOf "var1")])],
            [(bytesOf "var2", bytesOf "secretX:pass"), (bytesOf "var1", bytesOf "secretX:user")]⟩
    ∧ (GoMap.lookup [(bytesOf "secretX",
          [(bytesOf "pass", bytesOf "var2"), (bytesOf "user", bytesOf "var1")])]
        (bytesOf "secretX")).bind (fun m => GoMap.lookup m (bytesOf "user"))
      = some (bytesOf "var1")
    ∧ GoMap.lookup
        [(bytesOf "var2", bytesOf "secretX:pass"), (bytesOf "var1", bytesOf "secretX:user")]
        (bytesOf "var1")
      = some (bytesOf "secretX:user") := by
  obtain ⟨r, hr, hall, _⟩ := RetrieveK8sSecrets_wellFormed
    (clusterWith (bytesOf "secretX") [(CONJUR_MAP_KEY, bytesOf "user: var1\npass: var2")])
    ⟨⟨bytesOf "ns", [bytesOf "secretX"]⟩, []⟩ exampleManifest exampleManifest_carried
    (by decide) (by decide)
  have hrun : RetrieveK8sSecrets
      (clusterWith (bytesOf "secretX") [(CONJUR_MAP_KEY, bytesOf "user: var1\npass: var2")])
      ⟨⟨bytesOf "ns", [bytesOf "secretX"]⟩, []⟩
      = .ok ⟨[(bytesOf "secretX",
              [(bytesOf "pass", bytesOf "var2"), (bytesOf "user", bytesOf "var1")])],
            [(bytesOf "var2", bytesOf "secretX:pass"), (bytesOf "var1", bytesOf "secretX:user")]⟩ := by
    decide
  have hr' := GoResult.ok.inj (hr.symm.trans hrun)
  subst hr'
  have h := (hall (bytesOf "secretX") (by decide)).1 (bytesOf "user") (bytesOf "var1")
    (by decide)
  exact ⟨hrun, h.1, h.2⟩

/-- C8: when one variable id `v` is mapped by two well-formed manifest entries of
one `RetrieveK8sSecrets` call, the later one wins: if `(S₂, k₂, v)` comes after
`(S₁, k₁, v)` in processing order (the order of `RequiredK8sSecrets`, then the
line order inside a conjur-map) and no entry after it maps `v`, then
`PathMap[v]` is `S₂:k₂`, and `PathMap` holds exactly one entry for `v`. -/
theorem RetrieveK8sSecrets_later_wins (kubeClient : KubeClient) (secrets : K8sSecretsHandler)
    (manifest : Bytes → List (Bytes × Bytes))
    (hcarry : CarriesManifests kubeClient secrets.Config.PodNamespace
      secrets.Config.RequiredK8sSecrets manifest)
    (a b c : List (Bytes × Bytes × Bytes)) (S₁ k₁ S₂ k₂ v : Bytes)
    (hentries : cycleEntries secrets.Config.RequiredK8sSecrets manifest
      = a ++ (S₁, k₁, v) :: b ++ (S₂, k₂, v) :: c)
    (hlast : v ∉ c.map (fun e => e.2.2)) :
    ∃ r, RetrieveK8sSecrets kubeClient secrets = .ok r
      ∧ GoMap.lookup r.PathMap v = some (pathOf S₂ k₂)
      ∧ (r.PathMap.filter (fun e => decide (e.1 = v))).length = 1 := by
  refine ⟨_, RetrieveK8sSecrets_eq kubeClient secrets manifest hcarry, ?_⟩
  simp only []
  have hlook : GoMap.lookup (GoMap.assignAll []
      ((cycleEntries secrets.Config.RequiredK8sSecrets manifest).map pathAssignment)) v
      = some (pathOf S₂ k₂) := by
    have hsplit : (cycleEntries secrets.Config.RequiredK8sSecrets manifest).map pathAssignment
        = (a ++ (S₁, k₁, v) :: b).map pathAssignment
          ++ (v, pathOf S₂ k₂) :: c.map pathAssignment := by
      rw [hentries]
      simp [pathAssignment]
    rw [hsplit]
    apply GoMap.lookup_foldl_assign_last
    simpa [List.map_map, pathAssignment, Function.comp_def] using hlast
  exact ⟨hlook, GoMap.one_entry_of_lookup _ _ _
    (GoMap.foldl_assign_nodup _ [] List.nodup_nil) hlook⟩

theorem RetrieveK8sSecrets_later_wins_witness :
    RetrieveK8sSecrets
        (clusterWith (bytesOf "secretX") [(CONJUR_MAP_KEY, bytesOf "user: var1\nlogin: var1")])
        ⟨⟨bytesOf "ns", [bytesOf "secretX"]⟩, []⟩
      = .ok ⟨[(bytesOf "secretX",
              [(bytesOf "login", bytesOf "var1"), (bytesOf "user", bytesOf "var1")])],
            [(bytesOf "var1", bytesOf "secretX:login")]⟩
    ∧ GoMap.lookup [(bytesOf "var1", bytesOf "secretX:login")] (bytesOf "var1")
      = some (bytesOf "secretX:login")
    ∧ ([(bytesOf "var1", bytesOf "secretX:login")].filter
        (fun e => decide (e.1 = bytesOf "var1"))).length = 1 := by
  obtain ⟨r, hr, hlook, hone⟩ := RetrieveK8sSecrets_later_wins
    (clusterWith (bytesOf "secretX") [(CONJUR_MAP_KEY, bytesOf "user: var1\nlogin: var1")])
    ⟨⟨bytesOf "ns", [bytesOf "secretX"]⟩, []⟩ duplicateManifest duplicateManifest_carried
    [] [] [] (bytesOf "secretX") (bytesOf "user") (bytesOf "secretX") (bytesOf "login")
    (bytesOf "var1") (by decide) (by decide)
  have hrun : RetrieveK8sSecrets
      (clusterWith (bytesOf "secretX") [(CONJUR_MAP_KEY, bytesOf "user: var1\nlogin: var1")])
      ⟨⟨bytesOf "ns", [bytesOf "secretX"]⟩, []⟩
      = .ok ⟨[(bytesOf "secretX",
              [(bytesOf "login", bytesOf "var1"), (bytesOf "user", bytesOf "var1")])],
            [(bytesOf "var1", bytesOf "secretX:login")]⟩ := by
    decide
  have hr' := GoResult.ok.inj (hr.symm.trans hrun)
  subst hr'
  exact ⟨hrun, hlook, hone⟩

end ConjurK8s
